import Mathlib

/-!
# Verification of the amf-check-writer CV-to-check compilation pipeline

Shallow embedding of the core of `amf_check_writer` (files
`base_file.py`, `cvs/base.py`, `spreadsheet_handler.py`) and proofs of
the behavioural claims about it.

Conventions:
* Python strings are modelled as Lean `String`; character-level facts are
  proved on `String.data`.
* Python's insertion-ordered `dict` is modelled as an association list in
  insertion order.
* File-system interaction (`os.path.isfile`, `os.walk`, file contents) is
  modelled by an explicit environment record supplied to the pipeline
  functions.
* Every `print` call site is modelled as emission of a structured warning
  event carrying the stream the source passes to `print`.
-/

namespace AmfCheckWriter

/-! ## Facet namer (`base_file.py`, class `AmfFile`) -/

/-- `AmfFile.facet_separator`: the character separating facets in the
namespace and filenames. -/
def facetSeparator : String := "_"

/-- `AmfFile.__init__`: `self.namespace = self.facet_separator.join(facets)`. -/
def amfNamespace (facets : List String) : String :=
  String.intercalate facetSeparator facets

/-- `AmfFile.get_filename`: `"AMF{sep}{ns}.{ext}"`. -/
def getFilename (facets : List String) (ext : String) : String :=
  "AMF" ++ facetSeparator ++ amfNamespace facets ++ "." ++ ext

/-! ### Character-level view of the namer -/

theorem intercalate_go_data (s acc : String) (as : List String) :
    (String.intercalate.go acc s as).data
      = acc.data ++ (as.map (fun a => s.data ++ a.data)).flatten := by
  induction as generalizing acc with
  | nil => simp [String.intercalate.go]
  | cons a as ih =>
    simp [String.intercalate.go, ih, String.data_append, List.append_assoc]

theorem flatten_sep_eq_intercalate {α : Type} (sep x : List α)
    (as : List (List α)) :
    x ++ (as.map (fun a => sep ++ a)).flatten = List.intercalate sep (x :: as) := by
  induction as generalizing x with
  | nil => simp [List.intercalate]
  | cons b bs ih =>
    have h := ih b
    simp only [List.intercalate] at h ⊢
    simp only [List.map_cons, List.flatten_cons, List.intersperse_cons_cons,
      List.append_assoc]
    rw [h]

theorem amfNamespace_data (facets : List String) :
    (amfNamespace facets).data
      = List.intercalate ['_'] (facets.map String.data) := by
  cases facets with
  | nil => rfl
  | cons a as =>
    show (String.intercalate.go a facetSeparator as).data = _
    rw [intercalate_go_data]
    have hsep : facetSeparator.data = ['_'] := rfl
    simp only [hsep]
    rw [show as.map (fun s => ['_'] ++ s.data)
        = (as.map String.data).map (fun d => ['_'] ++ d) from by
      simp [List.map_map]]
    exact flatten_sep_eq_intercalate ['_'] a.data (as.map String.data)

/-- A string free of the separator character. -/
abbrev sepFree (s : String) : Prop := '_' ∉ s.data

theorem amfNamespace_injOn (f g : List String)
    (hf : ∀ s ∈ f, sepFree s) (hg : ∀ s ∈ g, sepFree s)
    (hfne : f ≠ []) (hgne : g ≠ [])
    (h : amfNamespace f = amfNamespace g) : f = g := by
  have hd : (amfNamespace f).data = (amfNamespace g).data := by rw [h]
  rw [amfNamespace_data, amfNamespace_data] at hd
  have hsf : (List.intercalate ['_'] (f.map String.data)).splitOn '_'
      = f.map String.data := by
    refine List.splitOn_intercalate _ '_' ?_ ?_
    · intro l hl
      rcases List.mem_map.mp hl with ⟨s, hs, rfl⟩
      exact hf s hs
    · simpa using hfne
  have hsg : (List.intercalate ['_'] (g.map String.data)).splitOn '_'
      = g.map String.data := by
    refine List.splitOn_intercalate _ '_' ?_ ?_
    · intro l hl
      rcases List.mem_map.mp hl with ⟨s, hs, rfl⟩
      exact hg s hs
    · simpa using hgne
  have : f.map String.data = g.map String.data := by
    rw [← hsf, ← hsg, hd]
  exact List.map_injective_iff.mpr (fun a b hab => String.ext hab) this

theorem getFilename_inj (f g : List String) (ext : String)
    (hf : ∀ s ∈ f, sepFree s) (hg : ∀ s ∈ g, sepFree s)
    (hfne : f ≠ []) (hgne : g ≠ [])
    (h : getFilename f ext = getFilename g ext) : f = g := by
  apply amfNamespace_injOn f g hf hg hfne hgne
  have hd := congrArg String.data h
  simp only [getFilename, String.data_append] at hd
  apply String.ext
  exact List.append_cancel_left
    (List.append_cancel_right (List.append_cancel_right hd))

/-! ## Whitespace-stripping reader (`cvs/base.py`, `StripWhitespaceReader`)

`StripWhitespaceReader.next` returns
`{k.strip(): v.strip() if v is not None else v for k, v in row.items()}`. -/

/-- Characters stripped by Python's `str.strip()` (ASCII whitespace). -/
def isPySpace (c : Char) : Bool :=
  c = ' ' || c = '\t' || c = '\n' || c = '\r' || c = '\x0b' || c = '\x0c'

/-- Python `str.strip()` on the character list of a string. -/
def pyStripChars (l : List Char) : List Char :=
  ((l.dropWhile isPySpace).reverse.dropWhile isPySpace).reverse

/-- Python `str.strip()`. -/
def pyStrip (s : String) : String := ⟨pyStripChars s.data⟩

/-- One row as delivered by `StripWhitespaceReader.next`: headers stripped,
non-`None` cell values stripped, `None` values left as `None`. -/
def stripRow (row : List (String × Option String)) :
    List (String × Option String) :=
  row.map (fun kv => (pyStrip kv.1, kv.2.map pyStrip))

theorem dropWhile_head_not (p : Char → Bool) (l : List Char) (c : Char)
    (cs : List Char) (h : l.dropWhile p = c :: cs) : p c = false := by
  induction l with
  | nil => simp [List.dropWhile] at h
  | cons a as ih =>
    rw [List.dropWhile] at h
    by_cases hp : p a
    · rw [hp] at h; simpa using ih h
    · simp only [Bool.not_eq_true] at hp
      rw [hp] at h
      simp at h
      rw [← h.1]
      exact hp

theorem dropWhile_is_suffix (p : Char → Bool) (l : List Char) :
    ∃ pre, l = pre ++ l.dropWhile p ∧ ∀ c ∈ pre, p c = true := by
  induction l with
  | nil => exact ⟨[], by simp⟩
  | cons a as ih =>
    rw [List.dropWhile]
    by_cases hp : p a
    · rcases ih with ⟨pre, hpre, hall⟩
      refine ⟨a :: pre, ?_, ?_⟩
      · rw [hp]; simpa using hpre
      · intro c hc
        rcases List.mem_cons.mp hc with rfl | hc
        · exact hp
        · exact hall c hc
    · simp only [Bool.not_eq_true] at hp
      rw [hp]
      exact ⟨[], by simp⟩

/-- Decomposition: stripping removes an all-whitespace prefix and an
all-whitespace suffix, leaving the middle untouched. -/
theorem pyStripChars_decomp (l : List Char) :
    ∃ pre suf, l = pre ++ pyStripChars l ++ suf ∧
      (∀ c ∈ pre, isPySpace c = true) ∧ (∀ c ∈ suf, isPySpace c = true) := by
  rcases dropWhile_is_suffix isPySpace l with ⟨pre1, hpre1, hall1⟩
  rcases dropWhile_is_suffix isPySpace (l.dropWhile isPySpace).reverse
    with ⟨pre2, hpre2, hall2⟩
  have hA : l.dropWhile isPySpace = pyStripChars l ++ pre2.reverse := by
    conv_lhs => rw [← List.reverse_reverse (l.dropWhile isPySpace), hpre2]
    simp [pyStripChars, List.reverse_append]
  refine ⟨pre1, pre2.reverse, ?_, hall1, fun c hc =>
    hall2 c (List.mem_reverse.mp hc)⟩
  conv_lhs => rw [hpre1, hA]
  simp [List.append_assoc]

/-- The stripped string begins with a non-whitespace character. -/
theorem pyStripChars_head (l : List Char) (c : Char) (cs : List Char)
    (h : pyStripChars l = c :: cs) : isPySpace c = false := by
  rcases dropWhile_is_suffix isPySpace (l.dropWhile isPySpace).reverse
    with ⟨pre2, hpre2, hall2⟩
  have hA : l.dropWhile isPySpace = (c :: cs) ++ pre2.reverse := by
    conv_lhs => rw [← List.reverse_reverse (l.dropWhile isPySpace), hpre2]
    unfold pyStripChars at h
    simp [List.reverse_append, h]
  exact dropWhile_head_not isPySpace l c (cs ++ pre2.reverse)
    (by simpa using hA)

/-- The stripped string ends with a non-whitespace character. -/
theorem pyStripChars_last (l : List Char) (c : Char) (cs : List Char)
    (h : pyStripChars l = cs ++ [c]) : isPySpace c = false := by
  unfold pyStripChars at h
  have h' : (l.dropWhile isPySpace).reverse.dropWhile isPySpace
      = c :: cs.reverse := by
    have := congrArg List.reverse h
    simpa using this
  exact dropWhile_head_not isPySpace (l.dropWhile isPySpace).reverse c
    cs.reverse h'

/-- A string with no leading or trailing Python whitespace. -/
def strippedChars (s : List Char) : Prop :=
  (∀ c cs, s = c :: cs → isPySpace c = false) ∧
  (∀ c cs, s = cs ++ [c] → isPySpace c = false)

theorem pyStripChars_stripped (l : List Char) :
    strippedChars (pyStripChars l) :=
  ⟨fun c cs h => pyStripChars_head l c cs h,
   fun c cs h => pyStripChars_last l c cs h⟩

/-! ## Data model for `spreadsheet_handler.py` -/

/-- Output streams a Python `print` can target. -/
inductive OutStream where
  | stdout
  | stderr
deriving DecidableEq

/-- One warning event, one constructor per `print("WARNING: ...")` call site
in `spreadsheet_handler.py`. -/
inductive WarnKind where
  /-- `_get_per_product_parse_info`, line 226: `No match for '{path}'`. -/
  | scanNoMatch (path : String)
  /-- `get_all_cvs`, line 188: no product variable/dimension spreadsheets. -/
  | noProducts (dirPath : String)
  /-- `_isfile`, line 263: `Expected to find file at '{path}'`. -/
  | missingFile (path : String)
  /-- `get_all_cvs`, line 209: `Failed to parse '{path}': {msg}`. -/
  | parseFail (path : String) (msg : String)
deriving DecidableEq

/-- The stream each warning call site passes to `print`. All sites pass
`file=sys.stderr` except the scan-mismatch site (line 226), which omits the
`file` argument and therefore writes to stdout. -/
def warnStream : WarnKind → OutStream
  | .scanNoMatch _ => .stdout
  | .noProducts _ => .stderr
  | .missingFile _ => .stderr
  | .parseFail _ _ => .stderr

/-- The formatted message of each warning call site. -/
def warnMsg : WarnKind → String
  | .scanNoMatch p => "WARNING: No match for '" ++ p ++ "'"
  | .noProducts d =>
      "WARNING: No product variable/dimension spreadsheets found in " ++ d
  | .missingFile p => "WARNING: Expected to find file at '" ++ p ++ "'"
  | .parseFail p m => "WARNING: Failed to parse '" ++ p ++ "': " ++ m

/-- A Python class, described by its name and its tuple of direct base
classes (`cls.__bases__`). -/
structure ClassDesc where
  name : String
  bases : List String
deriving DecidableEq

/-- Modelled from the spec: the concrete CV classes live in the
`amf_check_writer.cvs` package and `yaml_check.py`, which are not part of
the sources given; per the spec, the variable/dimension CVs are the CVs
"that are also YAML checks", so they list `YamlCheck` as a direct base,
while the four global-vocabulary CVs do not. -/
def VariablesCV : ClassDesc := ⟨"VariablesCV", ["BaseCV", "YamlCheck"]⟩

/-- Modelled from the spec: see `VariablesCV`. -/
def DimensionsCV : ClassDesc := ⟨"DimensionsCV", ["BaseCV", "YamlCheck"]⟩

/-- Modelled from the spec: a plain CV class, not a YAML check. -/
def InstrumentsCV : ClassDesc := ⟨"InstrumentsCV", ["BaseCV"]⟩

/-- Modelled from the spec: a plain CV class, not a YAML check. -/
def ProductsCV : ClassDesc := ⟨"ProductsCV", ["BaseCV"]⟩

/-- Modelled from the spec: a plain CV class, not a YAML check. -/
def PlatformsCV : ClassDesc := ⟨"PlatformsCV", ["BaseCV"]⟩

/-- Modelled from the spec: a plain CV class, not a YAML check. -/
def ScientistsCV : ClassDesc := ⟨"ScientistsCV", ["BaseCV"]⟩

/-- `CVParseInfo = namedtuple("CVParseInfo", ["path", "cls", "facets"])`. -/
structure CVParseInfo where
  path : String
  cls : ClassDesc
  facets : List String
deriving DecidableEq

/-- A parsed CV record (`cls(tsv_file, facets)`), identified by its class,
facets and source path. -/
structure CVRec where
  cls : ClassDesc
  facets : List String
  path : String
deriving DecidableEq

/-- Outcome of constructing `cls(tsv_file, facets)`: success, the
distinguished `DimensionsSheetNoRowsError`, or another `CVParseError`
carrying a message. -/
inductive ParseResult where
  | ok
  | noRows
  | parseError (msg : String)
deriving DecidableEq

/-- The file-system and parser environment of one pipeline run:
the spreadsheets root directory (`self.path`), the `os.path.isfile`
oracle, the parse outcome of each source, and the list of file paths
(relative to the root) produced by `os.walk` over the products directory. -/
structure Env where
  dir : String
  isFile : String → Bool
  parse : CVParseInfo → ParseResult
  scanPaths : List String

/-- `os.path.join` for the POSIX paths this pipeline builds. -/
def joinPath (a b : String) : String := a ++ "/" ++ b

/-! Entries of `SPREADSHEET_NAMES`. -/

def productsDirName : String := "Product Definition Spreadsheets"
def commonSpreadsheetName : String := "Common.xlsx"
def vocabsSpreadsheetName : String := "Vocabularies.xlsx"
def globalAttrsWorksheetName : String := "Global Attributes.tsv"
def instrumentsWorksheetName : String := "Instrument Name & Descriptors.tsv"
def dataProductsWorksheetName : String := "Data Products.tsv"
def platformsWorksheetName : String := "Platforms.tsv"
def scientistsWorksheetName : String := "Creators.tsv"

/-- `DeploymentModes`: the fixed enumeration of deployment mode values. -/
def deploymentModes : List String := ["Land", "Sea", "Air"]

/-- Python `str.lower()`, character by character (the mode strings are
ASCII). -/
def pyLower (s : String) : String := ⟨s.data.map Char.toLower⟩

/-- `VAR_DIM_FILENAME_MAPPING`, in insertion order:
(filename prefix, facet name, CV class). -/
def varDimMapping : List (String × String × ClassDesc) :=
  [("Variables", "variable", VariablesCV),
   ("Dimensions", "dimension", DimensionsCV)]

/-- The four static parse infos built at the top of `get_all_cvs`. -/
def staticInfos : List CVParseInfo :=
  [⟨joinPath vocabsSpreadsheetName instrumentsWorksheetName, InstrumentsCV,
      ["instrument"]⟩,
   ⟨joinPath vocabsSpreadsheetName dataProductsWorksheetName, ProductsCV,
      ["product"]⟩,
   ⟨joinPath vocabsSpreadsheetName platformsWorksheetName, PlatformsCV,
      ["platform"]⟩,
   ⟨joinPath vocabsSpreadsheetName scientistsWorksheetName, ScientistsCV,
      ["scientist"]⟩]

/-- `_get_common_var_dim_parse_info`: the cross product of
{Variables, Dimensions} × deployment modes. -/
def commonInfos : List CVParseInfo :=
  varDimMapping.flatMap (fun pm =>
    deploymentModes.map (fun depM =>
      ⟨joinPath commonSpreadsheetName (pm.1 ++ " - " ++ depM ++ ".tsv"),
       pm.2.2, ["product", "common", pm.2.1, pyLower depM]⟩))

/-! ### The per-product scan regex

`sheet_regex = (?P<name>[a-zA-Z0-9-]+)/(?P=name)\.xlsx/(?P<type>Variables|Dimensions) - Specific.tsv$`,
applied with `re.search` to each path produced by `os.walk`. Path
components contain no `/`, so a match decomposes over the last three
components `c1/c2/c3` of the path: `c3` matches
`(Variables|Dimensions) - Specific.tsv$` (the unescaped `.` matches any one
character), `c2` is exactly `name + ".xlsx"`, and `name` (nonempty, over
`[a-zA-Z0-9-]`) is a suffix of `c1`. -/

def allowedNameChar (c : Char) : Bool := c.isAlphanum || c = '-'

/-- Split a character list at every occurrence of `sep` (structural helper
used to decompose a POSIX path into its components). -/
def splitCharsOn (sep : Char) : List Char → List (List Char)
  | [] => [[]]
  | c :: rest =>
    match splitCharsOn sep rest with
    | [] => [[]]
    | h :: t => if c = sep then [] :: h :: t else (c :: h) :: t

/-- The `/`-separated components of a path. -/
def pathComponents (s : String) : List String :=
  (splitCharsOn '/' s.data).map (fun l => ⟨l⟩)

/-- Does the final path component match
`(?P<type>X) - Specific.tsv$` for the given type alternative `ty`?
The unescaped `.` of the regex matches any single character. -/
def sheetNameMatches (ty fname : String) : Bool :=
  let pre := (ty ++ " - Specific").data
  pre.isPrefixOf fname.data && ("tsv".data.isSuffixOf fname.data)
    && (fname.data.length == pre.length + 4)

/-- The `type` group captured from the final path component, if any. -/
def sheetTypeOf (fname : String) : Option String :=
  if sheetNameMatches "Variables" fname then some "Variables"
  else if sheetNameMatches "Dimensions" fname then some "Dimensions"
  else none

/-- `sheet_regex.search(path)`: the captured `(name, type)` pair, if the
path matches. -/
def matchProdSheet (path : String) : Option (String × String) :=
  match (pathComponents path).reverse with
  | c3 :: c2 :: c1 :: _ =>
    match sheetTypeOf c3 with
    | some ty =>
      if ".xlsx".data.isSuffixOf c2.data then
        let stem : List Char := c2.data.take (c2.data.length - 5)
        if stem ≠ [] ∧ stem.all allowedNameChar ∧ stem.isSuffixOf c1.data
        then some (⟨stem⟩, ty)
        else none
      else none
    | none => none
  | _ => none

/-- `VAR_DIM_FILENAME_MAPPING[cv_type]["cls"]`. -/
def clsOfType (ty : String) : ClassDesc :=
  if ty = "Variables" then VariablesCV else DimensionsCV

/-- `VAR_DIM_FILENAME_MAPPING[cv_type]["name"]`. -/
def facetNameOfType (ty : String) : String :=
  if ty = "Variables" then "variable" else "dimension"

/-- `_get_per_product_parse_info`: parse infos for the scan paths whose
path matches the regex. Paths are kept relative to the spreadsheets root
(the source applies `os.path.relpath` to the matched absolute path; the
regex is anchored at the end of the path, so matching is unaffected). -/
def perProductInfos (scanPaths : List String) : List CVParseInfo :=
  scanPaths.filterMap (fun p =>
    (matchProdSheet p).map (fun nt =>
      ⟨p, clsOfType nt.2, ["product", nt.1, facetNameOfType nt.2]⟩))

/-- The warnings printed while `_get_per_product_parse_info` iterates:
one per scan path the regex does not match. -/
def scanWarnings (scanPaths : List String) : List WarnKind :=
  scanPaths.filterMap (fun p =>
    if (matchProdSheet p).isNone then some (.scanNoMatch p) else none)

/-! ### The parse loop of `get_all_cvs` -/

/-- `base_class and base_class not in cls.__bases__` filter: with no
filter everything passes; with a filter, only classes listing it as a
direct base pass. -/
def passesFilter (baseClass : Option String) (i : CVParseInfo) : Bool :=
  match baseClass with
  | none => true
  | some b => i.cls.bases.contains b

/-- `os.path.join(self.path, path)`. -/
def fullPath (env : Env) (i : CVParseInfo) : String := joinPath env.dir i.path

/-- The record yielded for a parse info when parsing succeeds. -/
def recOf (i : CVParseInfo) : CVRec := ⟨i.cls, i.facets, i.path⟩

/-- One iteration of the loop body of `get_all_cvs`: the optional yielded
record and the optional warning. -/
def loopStep (env : Env) (bc : Option String) (i : CVParseInfo) :
    Option CVRec × Option WarnKind :=
  if passesFilter bc i then
    if env.isFile (fullPath env i) then
      match env.parse i with
      | .ok => (some (recOf i), none)
      | .noRows => (none, none)
      | .parseError m => (none, some (.parseFail (fullPath env i) m))
    else (none, some (.missingFile (fullPath env i)))
  else (none, none)

/-- The whole loop of `get_all_cvs`: records yielded and warnings printed,
in iteration order. -/
def processInfos (env : Env) (bc : Option String) :
    List CVParseInfo → List CVRec × List WarnKind
  | [] => ([], [])
  | i :: rest =>
    let s := loopStep env bc i
    let r := processInfos env bc rest
    (s.1.toList ++ r.1, s.2.toList ++ r.2)

/-- `get_all_cvs`: records and warnings of one CV enumeration. The scan
warnings are emitted while `list(self._get_per_product_parse_info())` is
forced, then the zero-per-product warning, then the loop warnings. -/
def getAllCvs (env : Env) (baseClass : Option String) :
    List CVRec × List WarnKind :=
  let perProd := perProductInfos env.scanPaths
  let infos := staticInfos ++ commonInfos ++ perProd
  let zeroWarn : List WarnKind :=
    if perProd.isEmpty then [.noProducts (joinPath env.dir productsDirName)]
    else []
  let r := processInfos env baseClass infos
  (r.1, scanWarnings env.scanPaths ++ zeroWarn ++ r.2)

/-! ## Check records and `write_yaml` -/

/-- A leaf-level YAML check: the two fixed global checks, the
global-attributes check, or a CV that is also a check. -/
inductive LeafCheck where
  | fileInfo
  | fileStructure
  | globalAttr
  | cvCheck (rec : CVRec)
deriving DecidableEq

/-- Facets of a leaf check: `FileInfoCheck(["file_info"])`,
`FileStructureCheck(["file_structure"])`, `GlobalAttrCheck(_, ["global_attrs"])`,
and a CV check's own facets. -/
def LeafCheck.facets : LeafCheck → List String
  | .fileInfo => ["file_info"]
  | .fileStructure => ["file_structure"]
  | .globalAttr => ["global_attrs"]
  | .cvCheck r => r.facets

/-- An emitted check record: a leaf check, or a `WrapperYamlCheck` holding
an ordered list of child checks and its own facets. `write_yaml` only ever
builds wrappers over leaf children. -/
inductive Check where
  | leaf (l : LeafCheck)
  | wrapper (children : List LeafCheck) (facets : List String)
deriving DecidableEq

/-- Facets of an emitted check. -/
def Check.facets : Check → List String
  | .leaf l => l.facets
  | .wrapper _ fs => fs

def Check.isWrapper : Check → Bool
  | .leaf _ => false
  | .wrapper _ _ => true

/-- Children of a check (a leaf has none). -/
def Check.children : Check → List LeafCheck
  | .leaf _ => []
  | .wrapper cs _ => cs

/-- Appending a record to the list stored under a key of an
insertion-ordered dict (`d.setdefault`-style update in `write_yaml`). -/
def addToGroup (k : String) (r : CVRec) :
    List (String × List CVRec) → List (String × List CVRec)
  | [] => [(k, [r])]
  | (k', l) :: rest =>
    if k' = k then (k', l ++ [r]) :: rest else (k', l) :: addToGroup k r rest

/-- `d.get(k)` on an insertion-ordered dict. -/
def lookupGroup (k : String) :
    List (String × List CVRec) → Option (List CVRec)
  | [] => none
  | (k', l) :: rest => if k' = k then some l else lookupGroup k rest

/-- The grouping test of `write_yaml`: for a CV with
`len(facets) > 2 and facets[0] == "product"`, the product name
`facets[1]` together with the last facet `facets[-1]`. -/
def scopedInfo (r : CVRec) : Option (String × String) :=
  match r.facets with
  | "product" :: p :: f2 :: rest =>
      some (p, (f2 :: rest).getLast (List.cons_ne_nil _ _))
  | _ => none

/-- The two insertion-ordered dicts `product_cvs` and `common_cvs`. -/
structure GroupState where
  prods : List (String × List CVRec)
  commons : List (String × List CVRec)
deriving DecidableEq

/-- One iteration of the grouping loop of `write_yaml`. -/
def groupStep (st : GroupState) (r : CVRec) : GroupState :=
  match scopedInfo r with
  | none => st
  | some pl =>
    if pl.1 = "common" then ⟨st.prods, addToGroup pl.2 r st.commons⟩
    else ⟨addToGroup pl.1 r st.prods, st.commons⟩

def groupCvsAux : GroupState → List CVRec → GroupState
  | st, [] => st
  | st, r :: rest => groupCvsAux (groupStep st r) rest

/-- The grouping loop of `write_yaml` over the filtered CV list. -/
def groupCvs (cvs : List CVRec) : GroupState := groupCvsAux ⟨[], []⟩ cvs

/-- The `global_checks` list: the two fixed checks, plus the
global-attributes check when its source file exists. -/
def globalChecks (gaPresent : Bool) : List LeafCheck :=
  [.fileInfo, .fileStructure] ++ (if gaPresent then [.globalAttr] else [])

/-- The wrapper checks synthesized by the final loop of `write_yaml`: one
per entry of `product_cvs` and deployment mode, with children
`global_checks + prod_cvs + common_cvs.get(dep_m, [])`. -/
def wrapperChecks (cvs : List CVRec) (gaPresent : Bool) : List Check :=
  (groupCvs cvs).prods.flatMap (fun pl =>
    deploymentModes.map (fun mode =>
      Check.wrapper
        (globalChecks gaPresent ++ pl.2.map LeafCheck.cvCheck
           ++ ((lookupGroup (pyLower mode) (groupCvs cvs).commons).getD []).map
                LeafCheck.cvCheck)
        ["product", pl.1, pyLower mode]))

/-- The `all_checks` list built by `write_yaml` from the filtered CVs and
the presence of the global-attributes worksheet: the CVs themselves, then
the global checks, then one wrapper per (product, deployment mode). -/
def writeYamlChecks (cvs : List CVRec) (gaPresent : Bool) : List Check :=
  cvs.map (fun r => Check.leaf (.cvCheck r))
    ++ (globalChecks gaPresent).map Check.leaf
    ++ wrapperChecks cvs gaPresent

/-- Path of the global-attributes worksheet checked by `write_yaml`. -/
def gattrsPath (env : Env) : String :=
  joinPath (joinPath env.dir commonSpreadsheetName) globalAttrsWorksheetName

/-- `write_yaml`: the records passed to `_write_output_files` and the
warnings printed along the way. `GlobalAttrCheck` construction itself is
modelled as succeeding. -/
def writeYamlPipeline (env : Env) : List Check × List WarnKind :=
  let r := getAllCvs env (some "YamlCheck")
  let gaPresent := env.isFile (gattrsPath env)
  let gaWarn : List WarnKind :=
    if gaPresent then [] else [.missingFile (gattrsPath env)]
  (writeYamlChecks r.1 gaPresent, r.2 ++ gaWarn)

/-! ## Bulk writer (`_write_output_files`)

`count = 0; for f in files: open/write (may raise); count += 1`, then
`print("{} files written".format(count))`. The write attempt for one
record is an oracle `w`; an exception is not caught, so the loop stops
and the count line is never printed. The result carries the list of
records written so far, pairing it in the success case with the reported
count. -/

def writeFilesAux {α ε : Type} (w : α → Except ε Unit) (written : List α)
    (count : Nat) : List α → Except (List α × ε) (List α × Nat)
  | [] => .ok (written, count)
  | f :: rest =>
    match w f with
    | .ok _ => writeFilesAux w (written ++ [f]) (count + 1) rest
    | .error e => .error (written, e)

def writeOutputFiles {α ε : Type} (w : α → Except ε Unit) (files : List α) :
    Except (List α × ε) (List α × Nat) :=
  writeFilesAux w [] 0 files

/-! ## Lemmas: the parse loop -/

theorem processInfos_eq (env : Env) (bc : Option String)
    (infos : List CVParseInfo) :
    processInfos env bc infos
      = (infos.filterMap (fun i => (loopStep env bc i).1),
         infos.filterMap (fun i => (loopStep env bc i).2)) := by
  induction infos with
  | nil => rfl
  | cons i rest ih =>
    show ((loopStep env bc i).1.toList ++ (processInfos env bc rest).1,
          (loopStep env bc i).2.toList ++ (processInfos env bc rest).2) = _
    rw [ih]
    cases h1 : (loopStep env bc i).1 <;> cases h2 : (loopStep env bc i).2 <;>
      simp [List.filterMap_cons, h1, h2]

theorem processInfos_append (env : Env) (bc : Option String)
    (l1 l2 : List CVParseInfo) :
    processInfos env bc (l1 ++ l2)
      = ((processInfos env bc l1).1 ++ (processInfos env bc l2).1,
         (processInfos env bc l1).2 ++ (processInfos env bc l2).2) := by
  simp [processInfos_eq, List.filterMap_append]

/-- Facets of the yielded records form a sublist of the facets of the
parse infos (each info contributes its own facets or nothing). -/
theorem processInfos_facets_sublist (env : Env) (bc : Option String)
    (infos : List CVParseInfo) :
    ((processInfos env bc infos).1.map CVRec.facets).Sublist
      (infos.map CVParseInfo.facets) := by
  induction infos with
  | nil => simp [processInfos]
  | cons i rest ih =>
    show (((loopStep env bc i).1.toList ++ (processInfos env bc rest).1).map
        CVRec.facets).Sublist _
    have hstep : ∀ r, (loopStep env bc i).1 = some r → r.facets = i.facets := by
      intro r hr
      unfold loopStep at hr
      by_cases hp : passesFilter bc i <;> simp [hp] at hr
      by_cases hf : env.isFile (fullPath env i) <;> simp [hf] at hr
      cases hpar : env.parse i <;> simp [hpar] at hr
      rw [← hr]; rfl
    cases h1 : (loopStep env bc i).1 with
    | none =>
      simp only [h1, Option.toList_none, List.nil_append, List.map_cons]
      exact ih.cons _
    | some r =>
      simp only [h1, Option.toList_some, List.singleton_append, List.map_cons,
        hstep r h1]
      exact ih.cons₂ _

/-- Every warning the loop prints is a missing-file or parse-failure
warning. -/
theorem processInfos_warn_shape (env : Env) (bc : Option String)
    (infos : List CVParseInfo) :
    ∀ w ∈ (processInfos env bc infos).2,
      (∃ p, w = WarnKind.missingFile p) ∨ (∃ p m, w = WarnKind.parseFail p m) := by
  intro w hw
  rw [processInfos_eq] at hw
  rcases List.mem_filterMap.mp hw with ⟨i, _, hi⟩
  unfold loopStep at hi
  by_cases hp : passesFilter bc i <;> simp [hp] at hi
  by_cases hf : env.isFile (fullPath env i) <;> simp [hf] at hi
  · cases hpar : env.parse i <;> simp [hpar] at hi
    exact Or.inr ⟨_, _, hi.symm⟩
  · exact Or.inl ⟨_, hi.symm⟩

/-! ## Lemmas: the grouping dicts of `write_yaml` -/

/-- The key under which a CV lands in `product_cvs`, if any. -/
def prodKeyOf (r : CVRec) : Option String :=
  match scopedInfo r with
  | some pl => if pl.1 = "common" then none else some pl.1
  | none => none

/-- The key under which a CV lands in `common_cvs`, if any. -/
def commonKeyOf (r : CVRec) : Option String :=
  match scopedInfo r with
  | some pl => if pl.1 = "common" then some pl.2 else none
  | none => none

/-- A single-dict view of the grouping loop, for a given key function. -/
def groupFold (keyFn : CVRec → Option String)
    (acc : List (String × List CVRec)) : List CVRec → List (String × List CVRec)
  | [] => acc
  | r :: rest =>
    groupFold keyFn
      (match keyFn r with
       | none => acc
       | some k => addToGroup k r acc) rest

theorem groupStep_prods (st : GroupState) (r : CVRec) :
    (groupStep st r).prods
      = match prodKeyOf r with
        | none => st.prods
        | some k => addToGroup k r st.prods := by
  unfold groupStep prodKeyOf
  cases h : scopedInfo r with
  | none => rfl
  | some pl => by_cases hc : pl.1 = "common" <;> simp [hc]

theorem groupStep_commons (st : GroupState) (r : CVRec) :
    (groupStep st r).commons
      = match commonKeyOf r with
        | none => st.commons
        | some k => addToGroup k r st.commons := by
  unfold groupStep commonKeyOf
  cases h : scopedInfo r with
  | none => rfl
  | some pl => by_cases hc : pl.1 = "common" <;> simp [hc]

theorem groupCvsAux_eq (st : GroupState) (cvs : List CVRec) :
    groupCvsAux st cvs
      = ⟨groupFold prodKeyOf st.prods cvs, groupFold commonKeyOf st.commons cvs⟩ := by
  induction cvs generalizing st with
  | nil => rfl
  | cons r rest ih =>
    show groupCvsAux (groupStep st r) rest = _
    rw [ih]
    have h1 : groupFold prodKeyOf st.prods (r :: rest)
        = groupFold prodKeyOf (groupStep st r).prods rest := by
      rw [groupStep_prods]; rfl
    have h2 : groupFold commonKeyOf st.commons (r :: rest)
        = groupFold commonKeyOf (groupStep st r).commons rest := by
      rw [groupStep_commons]; rfl
    rw [h1, h2]

theorem groupCvs_eq (cvs : List CVRec) :
    groupCvs cvs = ⟨groupFold prodKeyOf [] cvs, groupFold commonKeyOf [] cvs⟩ :=
  groupCvsAux_eq ⟨[], []⟩ cvs

/-! ### `addToGroup` and `lookupGroup` -/

theorem lookupGroup_addToGroup_same (k : String) (r : CVRec)
    (l : List (String × List CVRec)) :
    lookupGroup k (addToGroup k r l)
      = some ((lookupGroup k l).getD [] ++ [r]) := by
  induction l with
  | nil => simp [addToGroup, lookupGroup]
  | cons kl rest ih =>
    obtain ⟨k', v⟩ := kl
    by_cases h : k' = k <;> simp [addToGroup, lookupGroup, h, ih]

theorem lookupGroup_addToGroup_ne (k k' : String) (r : CVRec)
    (l : List (String × List CVRec)) (hne : k' ≠ k) :
    lookupGroup k' (addToGroup k r l) = lookupGroup k' l := by
  induction l with
  | nil => simp [addToGroup, lookupGroup, Ne.symm hne]
  | cons kl rest ih =>
    obtain ⟨k0, v⟩ := kl
    by_cases h : k0 = k
    · subst h
      simp [addToGroup, lookupGroup, Ne.symm hne]
    · by_cases h' : k0 = k' <;> simp [addToGroup, lookupGroup, h, h', hne, ih]

/-- Keys of a group dict, in insertion order. -/
def keysOf (l : List (String × List CVRec)) : List String := l.map Prod.fst

theorem keysOf_addToGroup (k : String) (r : CVRec)
    (l : List (String × List CVRec)) :
    keysOf (addToGroup k r l)
      = if k ∈ keysOf l then keysOf l else keysOf l ++ [k] := by
  induction l with
  | nil => simp [addToGroup, keysOf]
  | cons kl rest ih =>
    obtain ⟨k0, v⟩ := kl
    simp only [keysOf] at ih ⊢
    by_cases h : k0 = k
    · subst h
      simp [addToGroup]
    · have hk : ¬ k = k0 := fun hh => h hh.symm
      simp only [addToGroup, if_neg h, List.map_cons, ih]
      by_cases hm : k ∈ rest.map Prod.fst
      · simp [hm, hk]
      · simp [hm, hk]

theorem mem_keysOf_iff_lookup (k : String) (l : List (String × List CVRec)) :
    k ∈ keysOf l ↔ (lookupGroup k l).isSome := by
  induction l with
  | nil => simp [keysOf, lookupGroup]
  | cons kl rest ih =>
    obtain ⟨k0, v⟩ := kl
    simp only [keysOf, List.map_cons, List.mem_cons, lookupGroup]
    by_cases h : k0 = k
    · simp [h]
    · have hk : ¬ k = k0 := fun hh => h hh.symm
      rw [if_neg h, or_iff_right hk]
      simpa [keysOf] using ih

theorem lookupGroup_of_mem_nodup (l : List (String × List CVRec))
    (hnd : (keysOf l).Nodup) (k : String) (v : List CVRec)
    (hm : (k, v) ∈ l) : lookupGroup k l = some v := by
  induction l with
  | nil => simp at hm
  | cons kl rest ih =>
    obtain ⟨k0, v0⟩ := kl
    simp only [keysOf, List.map_cons, List.nodup_cons] at hnd
    rcases List.mem_cons.mp hm with heq | hmem
    · have hk : k = k0 := congrArg Prod.fst heq
      have hv : v = v0 := congrArg Prod.snd heq
      subst hk; subst hv
      simp [lookupGroup]
    · have hk : k0 ≠ k := by
        rintro rfl
        exact hnd.1 (List.mem_map_of_mem Prod.fst hmem)
      simp [lookupGroup, hk, ih hnd.2 hmem]

/-! ### `groupFold` characterization -/

/-- How a run of the grouping loop extends an existing entry. -/
def combineGroup (o : Option (List CVRec)) (l : List CVRec) :
    Option (List CVRec) :=
  match o with
  | none => if l.isEmpty then none else some l
  | some l0 => some (l0 ++ l)

theorem lookupGroup_groupFold (keyFn : CVRec → Option String) (k : String)
    (acc : List (String × List CVRec)) (cvs : List CVRec) :
    lookupGroup k (groupFold keyFn acc cvs)
      = combineGroup (lookupGroup k acc)
          (cvs.filter (fun r => keyFn r == some k)) := by
  induction cvs generalizing acc with
  | nil =>
    cases h : lookupGroup k acc <;> simp [groupFold, combineGroup, h]
  | cons r rest ih =>
    show lookupGroup k (groupFold keyFn _ rest) = _
    cases hk : keyFn r with
    | none =>
      rw [ih]
      simp [List.filter_cons, hk]
    | some k0 =>
      by_cases hkk : k0 = k
      · subst hkk
        rw [ih, lookupGroup_addToGroup_same]
        simp only [List.filter_cons, hk, beq_iff_eq, if_pos rfl]
        cases h0 : lookupGroup k0 acc <;>
          simp [combineGroup, h0, List.isEmpty_iff]
      · rw [ih, lookupGroup_addToGroup_ne _ _ _ _ (Ne.symm hkk)]
        simp only [List.filter_cons, hk]
        have : (some k0 == some k) = false := by
          simp [hkk]
        rw [this]
        simp

theorem mem_keysOf_groupFold (keyFn : CVRec → Option String) (k : String)
    (acc : List (String × List CVRec)) (cvs : List CVRec) :
    k ∈ keysOf (groupFold keyFn acc cvs)
      ↔ k ∈ keysOf acc ∨ ∃ r ∈ cvs, keyFn r = some k := by
  rw [mem_keysOf_iff_lookup, lookupGroup_groupFold, mem_keysOf_iff_lookup]
  cases h : lookupGroup k acc with
  | some v => simp [combineGroup]
  | none =>
    simp only [Option.isSome_none, Bool.false_eq_true, false_or]
    cases hf : cvs.filter (fun r => keyFn r == some k) with
    | nil =>
      simp only [combineGroup]
      simp only [List.isEmpty_nil, if_true, Option.isSome_none,
        Bool.false_eq_true, false_iff, not_exists]
      intro r hr
      have hmem : r ∈ cvs.filter (fun r => keyFn r == some k) :=
        List.mem_filter.mpr ⟨hr.1, by simp [hr.2]⟩
      rw [hf] at hmem
      simp at hmem
    | cons a as =>
      simp only [combineGroup]
      simp only [List.isEmpty_cons, Bool.false_eq_true, if_false,
        Option.isSome_some, true_iff]
      have ha : a ∈ cvs.filter (fun r => keyFn r == some k) := by
        rw [hf]; exact List.mem_cons_self a as
      rcases List.mem_filter.mp ha with ⟨hmem, hkey⟩
      exact ⟨a, hmem, by simpa using hkey⟩

theorem nodup_keysOf_groupFold (keyFn : CVRec → Option String)
    (acc : List (String × List CVRec)) (cvs : List CVRec)
    (hnd : (keysOf acc).Nodup) :
    (keysOf (groupFold keyFn acc cvs)).Nodup := by
  induction cvs generalizing acc with
  | nil => exact hnd
  | cons r rest ih =>
    show (keysOf (groupFold keyFn _ rest)).Nodup
    cases hk : keyFn r with
    | none => exact ih acc hnd
    | some k0 =>
      apply ih
      rw [keysOf_addToGroup]
      by_cases hm : k0 ∈ keysOf acc
      · simpa [hm] using hnd
      · simp only [if_neg hm]
        exact List.Nodup.append hnd (List.nodup_singleton k0)
          (fun a ha hb => hm ((List.mem_singleton.mp hb) ▸ ha))

/-! ### Derived facts about `groupCvs` -/

theorem lookupGroup_prods (cvs : List CVRec) (p : String) :
    lookupGroup p (groupCvs cvs).prods
      = combineGroup none (cvs.filter (fun r => prodKeyOf r == some p)) := by
  rw [groupCvs_eq]
  show lookupGroup p (groupFold prodKeyOf [] cvs) = _
  rw [lookupGroup_groupFold]
  rfl

theorem lookupGroup_commons (cvs : List CVRec) (k : String) :
    lookupGroup k (groupCvs cvs).commons
      = combineGroup none (cvs.filter (fun r => commonKeyOf r == some k)) := by
  rw [groupCvs_eq]
  show lookupGroup k (groupFold commonKeyOf [] cvs) = _
  rw [lookupGroup_groupFold]
  rfl

theorem nodup_keys_prods (cvs : List CVRec) :
    (keysOf (groupCvs cvs).prods).Nodup := by
  rw [groupCvs_eq]
  exact nodup_keysOf_groupFold _ _ _ (by simp [keysOf])

theorem mem_keys_prods (cvs : List CVRec) (p : String) :
    p ∈ keysOf (groupCvs cvs).prods ↔ ∃ r ∈ cvs, prodKeyOf r = some p := by
  rw [groupCvs_eq]
  show p ∈ keysOf (groupFold prodKeyOf [] cvs) ↔ _
  rw [mem_keysOf_groupFold]
  simp [keysOf]

theorem mem_prods_eq_filter (cvs : List CVRec) (pl : String × List CVRec)
    (hm : pl ∈ (groupCvs cvs).prods) :
    pl.2 = cvs.filter (fun r => prodKeyOf r == some pl.1) ∧ pl.2 ≠ [] := by
  have hl : lookupGroup pl.1 (groupCvs cvs).prods = some pl.2 :=
    lookupGroup_of_mem_nodup _ (nodup_keys_prods cvs) pl.1 pl.2 hm
  rw [lookupGroup_prods] at hl
  unfold combineGroup at hl
  by_cases he : (cvs.filter (fun r => prodKeyOf r == some pl.1)).isEmpty
  · rw [if_pos he] at hl
    exact absurd hl (by simp)
  · rw [if_neg he] at hl
    have h2 := Option.some.inj hl
    refine ⟨h2.symm, ?_⟩
    rw [← h2]
    simpa [List.isEmpty_iff] using he

theorem commons_getD (cvs : List CVRec) (k : String) :
    (lookupGroup k (groupCvs cvs).commons).getD []
      = cvs.filter (fun r => commonKeyOf r == some k) := by
  rw [lookupGroup_commons]
  unfold combineGroup
  cases hf : cvs.filter (fun r => commonKeyOf r == some k) with
  | nil => simp
  | cons a as => simp

/-! ### The wrapper checks in closed form -/

/-- The wrapper the spec describes for product `p` and lower-cased mode
`lm`: children are the global checks, then the product's records, then the
common records keyed by `lm` (possibly none), in CV order. -/
def wrapperFor (cvs : List CVRec) (ga : Bool) (p lm : String) : Check :=
  Check.wrapper
    (globalChecks ga
      ++ (cvs.filter (fun r => prodKeyOf r == some p)).map LeafCheck.cvCheck
      ++ (cvs.filter (fun r => commonKeyOf r == some lm)).map LeafCheck.cvCheck)
    ["product", p, lm]

theorem wrapperChecks_eq (cvs : List CVRec) (ga : Bool) :
    wrapperChecks cvs ga
      = (keysOf (groupCvs cvs).prods).flatMap (fun k =>
          deploymentModes.map (fun mode => wrapperFor cvs ga k (pyLower mode))) := by
  unfold wrapperChecks keysOf
  rw [List.flatMap_map]
  rw [List.flatMap_def, List.flatMap_def]
  congr 1
  apply List.map_congr_left
  intro pl hpl
  apply List.map_congr_left
  intro mode _
  rcases mem_prods_eq_filter cvs pl hpl with ⟨hfil, _⟩
  rw [wrapperFor, hfil, commons_getD]

theorem wrapperFor_inj (cvs : List CVRec) (ga : Bool) (p a q b : String)
    (h : wrapperFor cvs ga p a = wrapperFor cvs ga q b) : p = q ∧ a = b := by
  have hf := congrArg Check.facets h
  simpa [wrapperFor, Check.facets] using hf

theorem modes_map_pyLower {α : Type} (f : String → α) :
    deploymentModes.map (fun mode => f (pyLower mode))
      = [f "land", f "sea", f "air"] := by
  show [f (pyLower "Land"), f (pyLower "Sea"), f (pyLower "Air")] = _
  rw [show pyLower "Land" = "land" from by decide,
      show pyLower "Sea" = "sea" from by decide,
      show pyLower "Air" = "air" from by decide]

theorem count_modes_wrapperFor_self (cvs : List CVRec) (ga : Bool)
    (p lm : String) (hlm : lm ∈ ["land", "sea", "air"]) :
    (deploymentModes.map (fun mode => wrapperFor cvs ga p (pyLower mode))).count
        (wrapperFor cvs ga p lm) = 1 := by
  rw [modes_map_pyLower (wrapperFor cvs ga p)]
  have hne : ∀ a b : String, a ≠ b →
      (wrapperFor cvs ga p a == wrapperFor cvs ga p b) = false := by
    intro a b hab
    simp only [beq_eq_false_iff_ne, ne_eq]
    intro h
    exact hab (wrapperFor_inj cvs ga p a p b h).2
  fin_cases hlm
  · simp [List.count_cons, hne "sea" "land" (by decide),
      hne "air" "land" (by decide)]
  · simp [List.count_cons, hne "land" "sea" (by decide),
      hne "air" "sea" (by decide)]
  · simp [List.count_cons, hne "land" "air" (by decide),
      hne "sea" "air" (by decide)]

theorem count_modes_wrapperFor_ne (cvs : List CVRec) (ga : Bool)
    (k p lm : String) (hne : k ≠ p) :
    (deploymentModes.map (fun mode => wrapperFor cvs ga k (pyLower mode))).count
        (wrapperFor cvs ga p lm) = 0 := by
  rw [List.count_eq_zero]
  intro hmem
  rcases List.mem_map.mp hmem with ⟨mode, _, heq⟩
  exact hne (wrapperFor_inj cvs ga k (pyLower mode) p lm heq).1

theorem count_wrapper_flatMap (cvs : List CVRec) (ga : Bool) (p lm : String)
    (keys : List String) (hnd : keys.Nodup) (hlm : lm ∈ ["land", "sea", "air"]) :
    (keys.flatMap (fun k =>
        deploymentModes.map (fun mode => wrapperFor cvs ga k (pyLower mode)))).count
      (wrapperFor cvs ga p lm) = if p ∈ keys then 1 else 0 := by
  induction keys with
  | nil => simp
  | cons k rest ih =>
    rw [List.flatMap_cons, List.count_append]
    rcases List.nodup_cons.mp hnd with ⟨hknr, hndr⟩
    by_cases hk : k = p
    · subst hk
      rw [count_modes_wrapperFor_self cvs ga k lm hlm, ih hndr]
      simp [hknr]
    · have hpk : (p ∈ k :: rest) ↔ p ∈ rest := by
        rw [List.mem_cons, or_iff_right (fun h => hk h.symm)]
      rw [count_modes_wrapperFor_ne cvs ga k p lm hk, ih hndr,
        if_congr hpk rfl rfl]
      simp

theorem count_wrapper_eq_zero (l : List Check)
    (h : ∀ c ∈ l, c.isWrapper = false) (ch : List LeafCheck)
    (fs : List String) : l.count (Check.wrapper ch fs) = 0 := by
  rw [List.count_eq_zero]
  intro hmem
  have := h _ hmem
  simp [Check.isWrapper] at this

theorem countP_wrapperPred_eq_zero (l : List Check)
    (h : ∀ c ∈ l, c.isWrapper = false) (pr : Check → Bool)
    (hpr : ∀ c, c.isWrapper = false → pr c = false) :
    l.countP pr = 0 := by
  rw [List.countP_eq_zero]
  intro c hc
  simp [hpr c (h c hc)]

theorem leaves_not_wrapper {α : Type} (f : α → LeafCheck) (l : List α) :
    ∀ c ∈ l.map (fun x => Check.leaf (f x)), c.isWrapper = false := by
  intro c hc
  rcases List.mem_map.mp hc with ⟨x, _, rfl⟩
  rfl

theorem globals_not_wrapper (ga : Bool) :
    ∀ c ∈ (globalChecks ga).map Check.leaf, c.isWrapper = false := by
  intro c hc
  rcases List.mem_map.mp hc with ⟨x, _, rfl⟩
  rfl

theorem countP_prod_modes (cvs : List CVRec) (ga : Bool) (k p : String) :
    (deploymentModes.map (fun mode => wrapperFor cvs ga k (pyLower mode))).countP
        (fun c => c.isWrapper && (c.facets[1]? == some p))
      = if k = p then 3 else 0 := by
  rw [modes_map_pyLower (wrapperFor cvs ga k)]
  by_cases hk : k = p <;>
    simp [List.countP_cons, wrapperFor, Check.isWrapper, Check.facets, hk]

theorem countP_prod_flatMap (cvs : List CVRec) (ga : Bool) (p : String)
    (keys : List String) (hnd : keys.Nodup) :
    (keys.flatMap (fun k =>
        deploymentModes.map (fun mode => wrapperFor cvs ga k (pyLower mode)))).countP
      (fun c => c.isWrapper && (c.facets[1]? == some p))
      = if p ∈ keys then 3 else 0 := by
  induction keys with
  | nil => simp
  | cons k rest ih =>
    rw [List.flatMap_cons, List.countP_append]
    rcases List.nodup_cons.mp hnd with ⟨hknr, hndr⟩
    rw [countP_prod_modes, ih hndr]
    by_cases hk : k = p
    · subst hk
      simp [hknr]
    · have hpk : (p ∈ k :: rest) ↔ p ∈ rest := by
        rw [List.mem_cons, or_iff_right (fun h => hk h.symm)]
      rw [if_congr hpk rfl rfl, if_neg hk]
      simp

/-! ## Claim C1 -/

/-- C1: for every named product among the parsed product-scoped records
and every deployment mode in the fixed enumeration, `write_yaml`
synthesizes exactly one wrapper check with facets
`["product", <product>, <mode-lowercased>]`, whose child list is the
global checks, then that product's records, then the common records whose
last facet equals the lower-cased mode (empty when absent); and exactly 3
wrappers carry that product name. -/
theorem claim1_wrappers (cvs : List CVRec) (ga : Bool) (p : String)
    (hp : ∃ r ∈ cvs, prodKeyOf r = some p) (m : String)
    (hm : m ∈ deploymentModes) :
    (writeYamlChecks cvs ga).count (wrapperFor cvs ga p (pyLower m)) = 1 ∧
    (∀ c ∈ writeYamlChecks cvs ga, c.isWrapper = true →
        c.facets = ["product", p, pyLower m]
        → c = wrapperFor cvs ga p (pyLower m)) ∧
    (writeYamlChecks cvs ga).countP
        (fun c => c.isWrapper && (c.facets[1]? == some p)) = 3 := by
  have hkey : p ∈ keysOf (groupCvs cvs).prods := (mem_keys_prods cvs p).mpr hp
  have hnd := nodup_keys_prods cvs
  have hlm : pyLower m ∈ ["land", "sea", "air"] := by
    fin_cases hm <;> decide
  refine ⟨?_, ?_, ?_⟩
  · unfold writeYamlChecks
    rw [List.count_append, List.count_append]
    rw [show wrapperFor cvs ga p (pyLower m)
        = Check.wrapper (wrapperFor cvs ga p (pyLower m)).children
            (wrapperFor cvs ga p (pyLower m)).facets from rfl]
    rw [count_wrapper_eq_zero _ (leaves_not_wrapper LeafCheck.cvCheck cvs),
        count_wrapper_eq_zero _ (globals_not_wrapper ga)]
    rw [show Check.wrapper (wrapperFor cvs ga p (pyLower m)).children
            (wrapperFor cvs ga p (pyLower m)).facets
        = wrapperFor cvs ga p (pyLower m) from rfl]
    rw [wrapperChecks_eq, count_wrapper_flatMap cvs ga p (pyLower m) _ hnd hlm,
        if_pos hkey]
  · intro c hc hw hf
    unfold writeYamlChecks at hc
    rcases List.mem_append.mp hc with hc12 | hc3
    · rcases List.mem_append.mp hc12 with hc1 | hc2
      · rw [leaves_not_wrapper LeafCheck.cvCheck cvs c hc1] at hw
        cases hw
      · rw [globals_not_wrapper ga c hc2] at hw
        cases hw
    · rw [wrapperChecks_eq] at hc3
      rcases List.mem_flatMap.mp hc3 with ⟨k, hk, hcm⟩
      rcases List.mem_map.mp hcm with ⟨mode, hmode, rfl⟩
      have hfk : k = p ∧ pyLower mode = pyLower m := by
        simpa [wrapperFor, Check.facets] using hf
      rw [hfk.1, hfk.2]
  · unfold writeYamlChecks
    rw [List.countP_append, List.countP_append]
    have hpr : ∀ c : Check, c.isWrapper = false →
        (c.isWrapper && (c.facets[1]? == some p)) = false := by
      intro c hcw
      simp [hcw]
    rw [countP_wrapperPred_eq_zero _ (leaves_not_wrapper LeafCheck.cvCheck cvs)
          _ hpr,
        countP_wrapperPred_eq_zero _ (globals_not_wrapper ga) _ hpr,
        wrapperChecks_eq, countP_prod_flatMap cvs ga p _ hnd, if_pos hkey]

/-- Witness for C1 at a concrete input. -/
theorem claim1_wrappers_witness :
    (writeYamlChecks [⟨VariablesCV, ["product", "radar", "variable"], "pp"⟩]
        false).count
      (wrapperFor [⟨VariablesCV, ["product", "radar", "variable"], "pp"⟩]
        false "radar" (pyLower "Land")) = 1 :=
  (claim1_wrappers [⟨VariablesCV, ["product", "radar", "variable"], "pp"⟩]
    false "radar"
    ⟨⟨VariablesCV, ["product", "radar", "variable"], "pp"⟩, by decide, by decide⟩
    "Land" (by decide)).1

/-! ## Claim C2 -/

/-- C2 as stated is false: in a run whose input tree holds one per-product
variables sheet, the emitted set contains the atomic leaf record itself,
which is neither a global check nor a wrapper. -/
theorem claim2_counterexample :
    ¬ (∀ c ∈ (writeYamlPipeline
        ⟨"root",
         fun q => q ==
           "root/Product Definition Spreadsheets/radar/radar.xlsx/Variables - Specific.tsv",
         fun _ => .ok,
         ["Product Definition Spreadsheets/radar/radar.xlsx/Variables - Specific.tsv"]⟩).1,
        c = Check.leaf .fileInfo ∨ c = Check.leaf .fileStructure ∨
        c = Check.leaf .globalAttr ∨ c.isWrapper = true) := by
  decide

/-- C2 (amended): the emitted set consists of the parsed leaf CV records,
the global checks, and the synthesized wrappers — the atomic per-product
and per-common records ARE emitted standalone alongside the wrappers that
reference them. -/
theorem claim2_output_set (cvs : List CVRec) (ga : Bool) (c : Check) :
    c ∈ writeYamlChecks cvs ga ↔
      ((∃ r ∈ cvs, c = Check.leaf (.cvCheck r)) ∨
       (∃ l ∈ globalChecks ga, c = Check.leaf l) ∨
       (∃ p, (∃ r ∈ cvs, prodKeyOf r = some p) ∧
          ∃ m ∈ deploymentModes, c = wrapperFor cvs ga p (pyLower m))) := by
  unfold writeYamlChecks
  constructor
  · intro hc
    rcases List.mem_append.mp hc with h12 | h3
    · rcases List.mem_append.mp h12 with h1 | h2
      · rcases List.mem_map.mp h1 with ⟨r, hr, rfl⟩
        exact Or.inl ⟨r, hr, rfl⟩
      · rcases List.mem_map.mp h2 with ⟨l, hl, rfl⟩
        exact Or.inr (Or.inl ⟨l, hl, rfl⟩)
    · rw [wrapperChecks_eq] at h3
      rcases List.mem_flatMap.mp h3 with ⟨k, hk, hcm⟩
      rcases List.mem_map.mp hcm with ⟨mode, hmode, rfl⟩
      exact Or.inr (Or.inr ⟨k, (mem_keys_prods cvs k).mp hk, mode, hmode, rfl⟩)
  · intro h
    rcases h with ⟨r, hr, rfl⟩ | ⟨l, hl, rfl⟩ | ⟨p, hp, m, hm, rfl⟩
    · exact List.mem_append.mpr (Or.inl (List.mem_append.mpr
        (Or.inl (List.mem_map.mpr ⟨r, hr, rfl⟩))))
    · exact List.mem_append.mpr (Or.inl (List.mem_append.mpr
        (Or.inr (List.mem_map.mpr ⟨l, hl, rfl⟩))))
    · refine List.mem_append.mpr (Or.inr ?_)
      rw [wrapperChecks_eq]
      exact List.mem_flatMap.mpr
        ⟨p, (mem_keys_prods cvs p).mpr hp, List.mem_map.mpr ⟨m, hm, rfl⟩⟩

/-! ## Claim C4 -/

/-- C4 as stated is false: the empty facet sequence and the sequence
holding one empty token are distinct, both trivially satisfy the
separator-free precondition, yet produce the same filename `AMF_.yml`. -/
theorem claim4_counterexample :
    ([] : List String) ≠ [""] ∧
    (∀ s ∈ ([] : List String), sepFree s) ∧ (∀ s ∈ [""], sepFree s) ∧
    getFilename [] "yml" = getFilename [""] "yml" := by
  refine ⟨by simp, by simp, ?_, by decide⟩
  intro s hs
  rw [List.mem_singleton.mp hs]
  intro h
  simp at h

/-- C4 (amended): the namer joins the facets with the fixed separator
`"_"`, builds filenames as `"AMF" ++ "_" ++ namespace ++ "." ++ ext`, and
on NONEMPTY facet sequences whose tokens are separator-free it is
injective: distinct sequences yield distinct filenames. -/
theorem claim4_facet_namer (f g : List String) (ext : String)
    (hf : ∀ s ∈ f, sepFree s) (hg : ∀ s ∈ g, sepFree s)
    (hfne : f ≠ []) (hgne : g ≠ []) :
    amfNamespace f = String.intercalate "_" f ∧
    getFilename f ext = "AMF" ++ "_" ++ amfNamespace f ++ "." ++ ext ∧
    (getFilename f ext = getFilename g ext → f = g) :=
  ⟨rfl, rfl, getFilename_inj f g ext hf hg hfne hgne⟩

/-- Witness for C4 at concrete inputs. -/
theorem claim4_facet_namer_witness :
    amfNamespace ["product", "radar"] = String.intercalate "_" ["product", "radar"] ∧
    (getFilename ["product", "radar"] "yml" = getFilename ["file"] "yml"
      → ["product", "radar"] = ["file"]) :=
  ⟨(claim4_facet_namer ["product", "radar"] ["file"] "yml"
      (by decide) (by decide) (by decide) (by decide)).1,
   (claim4_facet_namer ["product", "radar"] ["file"] "yml"
      (by decide) (by decide) (by decide) (by decide)).2.2⟩

/-! ## Claim C7 -/

/-- C7: every row delivered by `StripWhitespaceReader.next` has leading
and trailing whitespace removed from every header key and every non-None
cell value; `None` cells stay `None`; nothing but edge whitespace is
removed. -/
theorem claim7_strip_whitespace (row : List (String × Option String)) :
    (stripRow row).length = row.length ∧
    ∀ n (h1 : n < (stripRow row).length) (h2 : n < row.length),
      ((stripRow row).get ⟨n, h1⟩).1 = pyStrip (row.get ⟨n, h2⟩).1 ∧
      strippedChars ((stripRow row).get ⟨n, h1⟩).1.data ∧
      (∃ pre suf, (row.get ⟨n, h2⟩).1.data
          = pre ++ ((stripRow row).get ⟨n, h1⟩).1.data ++ suf ∧
          (∀ c ∈ pre, isPySpace c = true) ∧ (∀ c ∈ suf, isPySpace c = true)) ∧
      ((row.get ⟨n, h2⟩).2 = none → ((stripRow row).get ⟨n, h1⟩).2 = none) ∧
      (∀ s, (row.get ⟨n, h2⟩).2 = some s →
        ((stripRow row).get ⟨n, h1⟩).2 = some (pyStrip s) ∧
        strippedChars (pyStrip s).data ∧
        ∃ pre suf, s.data = pre ++ (pyStrip s).data ++ suf ∧
          (∀ c ∈ pre, isPySpace c = true) ∧ (∀ c ∈ suf, isPySpace c = true)) := by
  refine ⟨by simp [stripRow], ?_⟩
  intro n h1 h2
  have hget : (stripRow row).get ⟨n, h1⟩
      = (pyStrip (row.get ⟨n, h2⟩).1, (row.get ⟨n, h2⟩).2.map pyStrip) := by
    simp [stripRow]
  rw [hget]
  refine ⟨rfl, pyStripChars_stripped _, pyStripChars_decomp _, ?_, ?_⟩
  · intro h
    rw [h]
    rfl
  · intro s hs
    rw [hs]
    exact ⟨rfl, pyStripChars_stripped _, pyStripChars_decomp _⟩

/-- Witness for C7 at a concrete row. -/
theorem claim7_strip_whitespace_witness :
    (stripRow [("  a", some " b "), ("c", none)]).length = 2 ∧
    ((stripRow [("  a", some " b "), ("c", none)]).get ⟨0, by decide⟩).1
      = pyStrip (([("  a", some " b "), ("c", none)] :
          List (String × Option String)).get ⟨0, by decide⟩).1 := by
  have h := claim7_strip_whitespace [("  a", some " b "), ("c", none)]
  exact ⟨by rw [h.1]; rfl, (h.2 0 (by decide) (by decide)).1⟩

/-! ## Claim C8 -/

theorem writeFilesAux_ok {α ε : Type} (w : α → Except ε Unit)
    (files : List α) (written : List α) (count : Nat)
    (h : ∀ f ∈ files, w f = .ok ()) :
    writeFilesAux w written count files
      = .ok (written ++ files, count + files.length) := by
  induction files generalizing written count with
  | nil => simp [writeFilesAux]
  | cons f rest ih =>
    show (match w f with
      | .ok _ => writeFilesAux w (written ++ [f]) (count + 1) rest
      | .error e => .error (written, e)) = _
    rw [h f (List.mem_cons_self f rest)]
    rw [ih (written ++ [f]) (count + 1)
      (fun g hg => h g (List.mem_cons_of_mem f hg))]
    simp [List.append_assoc]
    omega

theorem writeFilesAux_error {α ε : Type} (w : α → Except ε Unit)
    (pre : List α) (f : α) (post : List α) (e : ε)
    (written : List α) (count : Nat)
    (hpre : ∀ g ∈ pre, w g = .ok ()) (hf : w f = .error e) :
    writeFilesAux w written count (pre ++ f :: post)
      = .error (written ++ pre, e) := by
  induction pre generalizing written count with
  | nil =>
    show (match w f with
      | .ok _ => writeFilesAux w (written ++ [f]) (count + 1) post
      | .error e => .error (written, e)) = _
    rw [hf]
    simp
  | cons g rest ih =>
    show (match w g with
      | .ok _ => writeFilesAux w (written ++ [g]) (count + 1) (rest ++ f :: post)
      | .error e => .error (written, e)) = _
    rw [hpre g (List.mem_cons_self g rest)]
    rw [ih (written ++ [g]) (count + 1)
      (fun x hx => hpre x (List.mem_cons_of_mem g hx))]
    simp [List.append_assoc]

/-- C8: the bulk writer writes one file per record and reports a count
equal to the number of records on success; a write failure propagates: the
batch stops with the earlier records written, the failing and remaining
records unwritten, and no count reported. -/
theorem claim8_bulk_writer {α ε : Type} (w : α → Except ε Unit)
    (files : List α) :
    ((∀ f ∈ files, w f = .ok ()) →
      writeOutputFiles w files = .ok (files, files.length)) ∧
    (∀ pre f post e, files = pre ++ f :: post →
      (∀ g ∈ pre, w g = .ok ()) → w f = .error e →
      writeOutputFiles w files = .error (pre, e)) := by
  constructor
  · intro h
    unfold writeOutputFiles
    rw [writeFilesAux_ok w files [] 0 h]
    simp
  · intro pre f post e hsplit hpre hf
    unfold writeOutputFiles
    rw [hsplit, writeFilesAux_error w pre f post e [] 0 hpre hf]
    simp

/-- Witness for C8 at concrete inputs. -/
theorem claim8_bulk_writer_witness :
    writeOutputFiles (fun n : Nat => if n = 2 then .error "boom" else .ok ())
        [5, 6] = .ok ([5, 6], 2) ∧
    writeOutputFiles (fun n : Nat => if n = 2 then .error "boom" else .ok ())
        [0, 1, 2, 3] = .error ([0, 1], "boom") := by
  constructor
  · have h := (claim8_bulk_writer
      (fun n : Nat => if n = 2 then .error "boom" else .ok ()) [5, 6]).1
      (by intro f hf; fin_cases hf <;> rfl)
    simpa using h
  · exact (claim8_bulk_writer
      (fun n : Nat => if n = 2 then .error "boom" else .ok ()) [0, 1, 2, 3]).2
      [0, 1] 2 [3] "boom" rfl (by intro g hg; fin_cases hg <;> rfl) rfl

/-! ## Claim C5 -/

/-- C5: during CV loading, a `DimensionsSheetNoRowsError` is silently
skipped (no record, no warning), while any other `CVParseError` produces a
warning carrying the source path and the loop continues over all sources
(the outputs are total functions of the whole info list). -/
theorem claim5_parse_errors (env : Env) (bc : Option String)
    (infos : List CVParseInfo) :
    processInfos env bc infos
      = (infos.filterMap (fun i => (loopStep env bc i).1),
         infos.filterMap (fun i => (loopStep env bc i).2)) ∧
    ∀ i ∈ infos, passesFilter bc i = true →
      env.isFile (fullPath env i) = true →
      ((env.parse i = .noRows → loopStep env bc i = (none, none)) ∧
       (∀ m, env.parse i = .parseError m →
          loopStep env bc i
            = (none, some (.parseFail (fullPath env i) m)) ∧
          ∃ a b, warnMsg (WarnKind.parseFail (fullPath env i) m)
              = a ++ (fullPath env i ++ b))) := by
  refine ⟨processInfos_eq env bc infos, ?_⟩
  intro i _ hp hf
  constructor
  · intro hnr
    unfold loopStep
    simp [hp, hf, hnr]
  · intro m hm
    refine ⟨by unfold loopStep; simp [hp, hf, hm], ?_⟩
    exact ⟨"WARNING: Failed to parse '", "': " ++ m, by
      simp [warnMsg, String.append_assoc]⟩

/-- Witness for C5 at a concrete environment. -/
theorem claim5_parse_errors_witness :
    loopStep ⟨"root", fun _ => true,
        fun i => if i.path = "a" then .noRows else .parseError "bad", []⟩
      none ⟨"a", VariablesCV, ["x"]⟩ = (none, none) ∧
    loopStep ⟨"root", fun _ => true,
        fun i => if i.path = "a" then .noRows else .parseError "bad", []⟩
      none ⟨"b", DimensionsCV, ["y"]⟩
      = (none, some (.parseFail
          (fullPath ⟨"root", fun _ => true,
            fun i => if i.path = "a" then .noRows else .parseError "bad", []⟩
            ⟨"b", DimensionsCV, ["y"]⟩) "bad")) := by
  have h := claim5_parse_errors
    ⟨"root", fun _ => true,
      fun i => if i.path = "a" then .noRows else .parseError "bad", []⟩
    none [⟨"a", VariablesCV, ["x"]⟩, ⟨"b", DimensionsCV, ["y"]⟩]
  refine ⟨(h.2 ⟨"a", VariablesCV, ["x"]⟩ (by decide) rfl rfl).1 (by decide),
    ((h.2 ⟨"b", DimensionsCV, ["y"]⟩ (by decide) rfl rfl).2 "bad"
      (by decide)).1⟩

/-! ## Claim C6 -/

theorem scanWarnings_shape (sp : List String) :
    ∀ w ∈ scanWarnings sp, ∃ p, w = WarnKind.scanNoMatch p := by
  intro w hw
  rcases List.mem_filterMap.mp hw with ⟨p, _, hp⟩
  by_cases h : (matchProdSheet p).isNone <;> simp [h] at hp
  exact ⟨p, hp.symm⟩

/-- C6: when the per-product scan yields zero entries, CV enumeration
emits exactly one warning naming the products directory and continues;
with no sources present at all, check compilation still completes and
emits exactly the two fixed global checks. -/
theorem claim6_zero_products (env : Env) (bc : Option String)
    (hscan : perProductInfos env.scanPaths = []) :
    (getAllCvs env bc).2.count
        (WarnKind.noProducts (joinPath env.dir productsDirName)) = 1 ∧
    ((∀ p, env.isFile p = false) →
      (writeYamlPipeline env).1
        = [Check.leaf .fileInfo, Check.leaf .fileStructure]) := by
  constructor
  · show (scanWarnings env.scanPaths
        ++ (if (perProductInfos env.scanPaths).isEmpty
            then [WarnKind.noProducts (joinPath env.dir productsDirName)]
            else [])
        ++ (processInfos env bc
              (staticInfos ++ commonInfos ++ perProductInfos env.scanPaths)).2).count
      (WarnKind.noProducts (joinPath env.dir productsDirName)) = 1
    rw [List.count_append, List.count_append]
    have h1 : (scanWarnings env.scanPaths).count
        (WarnKind.noProducts (joinPath env.dir productsDirName)) = 0 := by
      rw [List.count_eq_zero]
      intro hm
      rcases scanWarnings_shape env.scanPaths _ hm with ⟨p, hp⟩
      cases hp
    have h3 : ((processInfos env bc
        (staticInfos ++ commonInfos ++ perProductInfos env.scanPaths)).2).count
        (WarnKind.noProducts (joinPath env.dir productsDirName)) = 0 := by
      rw [List.count_eq_zero]
      intro hm
      rcases processInfos_warn_shape env bc _ _ hm with ⟨p, hp⟩ | ⟨p, m, hp⟩ <;>
        cases hp
    rw [h1, h3, hscan]
    simp
  · intro hfiles
    show writeYamlChecks (getAllCvs env (some "YamlCheck")).1
        (env.isFile (gattrsPath env)) = _
    have hcvs : (getAllCvs env (some "YamlCheck")).1 = [] := by
      show (processInfos env (some "YamlCheck")
          (staticInfos ++ commonInfos ++ perProductInfos env.scanPaths)).1 = []
      rw [processInfos_eq]
      simp only [List.filterMap_eq_nil_iff]
      intro i _
      unfold loopStep
      by_cases hp : passesFilter (some "YamlCheck") i <;> simp [hp, hfiles]
    rw [hcvs, hfiles (gattrsPath env)]
    rfl

/-- Witness for C6 at a concrete environment. -/
theorem claim6_zero_products_witness :
    (getAllCvs ⟨"root", fun _ => false, fun _ => .ok, []⟩
        (some "YamlCheck")).2.count
      (WarnKind.noProducts (joinPath "root" productsDirName)) = 1 ∧
    (writeYamlPipeline ⟨"root", fun _ => false, fun _ => .ok, []⟩).1
      = [Check.leaf .fileInfo, Check.leaf .fileStructure] := by
  have h := claim6_zero_products ⟨"root", fun _ => false, fun _ => .ok, []⟩
    (some "YamlCheck") rfl
  exact ⟨h.1, h.2 (fun p => rfl)⟩

/-! ## Claim C10 -/

/-- C10: with a base-class filter, the loop yields a record exactly for
the discovered sources whose class lists the filter class among its DIRECT
bases (and exists and parses); a class reaching the filter class only
through an intermediate class in the hierarchy is excluded (not even
probed for existence); with no filter, every discovered and successfully
parsed record is yielded. -/
theorem claim10_base_filter (env : Env) (infos : List CVParseInfo)
    (b : String) :
    (processInfos env (some b) infos).1
      = infos.filterMap (fun i =>
          if b ∈ i.cls.bases ∧ env.isFile (fullPath env i) = true
             ∧ env.parse i = .ok
          then some (recOf i) else none) ∧
    (processInfos env none infos).1
      = infos.filterMap (fun i =>
          if env.isFile (fullPath env i) = true ∧ env.parse i = .ok
          then some (recOf i) else none) ∧
    (∀ (hier : List ClassDesc) (i : CVParseInfo), i ∈ infos →
       b ∉ i.cls.bases →
       (∃ mid ∈ i.cls.bases, ∃ md ∈ hier, md.name = mid ∧ b ∈ md.bases) →
       loopStep env (some b) i = (none, none)) := by
  refine ⟨?_, ?_, ?_⟩
  · rw [processInfos_eq]
    apply List.filterMap_congr
    intro i _
    unfold loopStep passesFilter
    by_cases hb : i.cls.bases.contains b
    · have hb' : b ∈ i.cls.bases := List.elem_iff.mp hb
      by_cases hf : env.isFile (fullPath env i) <;>
        [skip; simp [hb, hb', hf]]
      cases hpar : env.parse i <;> simp [hb, hb', hf, hpar]
    · have hb' : b ∉ i.cls.bases := fun h => hb (List.elem_iff.mpr h)
      simp [hb, hb']
  · rw [processInfos_eq]
    apply List.filterMap_congr
    intro i _
    unfold loopStep passesFilter
    by_cases hf : env.isFile (fullPath env i) <;> [skip; simp [hf]]
    cases hpar : env.parse i <;> simp [hf, hpar]
  · intro hier i _ hb _
    unfold loopStep passesFilter
    have hb' : i.cls.bases.contains b = false := by
      rcases h : i.cls.bases.contains b with _ | _
      · rfl
      · exact absurd (List.elem_iff.mp h) hb
    simp [hb', hb]

/-- Witness for C10: a class inheriting `YamlCheck` only through an
intermediate class is excluded; with no filter the same source is
yielded. -/
theorem claim10_base_filter_witness :
    loopStep ⟨"root", fun _ => true, fun _ => .ok, []⟩ (some "YamlCheck")
        ⟨"x", ⟨"SubSub", ["Mid"]⟩, ["f"]⟩ = (none, none) ∧
    (processInfos ⟨"root", fun _ => true, fun _ => .ok, []⟩ none
        [⟨"x", ⟨"SubSub", ["Mid"]⟩, ["f"]⟩]).1
      = [recOf ⟨"x", ⟨"SubSub", ["Mid"]⟩, ["f"]⟩] := by
  have h := claim10_base_filter ⟨"root", fun _ => true, fun _ => .ok, []⟩
    [⟨"x", ⟨"SubSub", ["Mid"]⟩, ["f"]⟩] "YamlCheck"
  refine ⟨h.2.2 [⟨"Mid", ["YamlCheck"]⟩] ⟨"x", ⟨"SubSub", ["Mid"]⟩, ["f"]⟩
      (by decide) (by decide)
      ⟨"Mid", by decide, ⟨"Mid", ["YamlCheck"]⟩, by decide, rfl, by decide⟩, ?_⟩
  rw [h.2.1]
  decide

/-! ## Claim C9 -/

/-- C9 as stated is false: in a run whose scan area holds one file the
pattern does not match, the resulting pattern-mismatch warning is printed
without `file=sys.stderr` (line 226), i.e. to stdout — so not every
pipeline warning goes to the error stream. -/
theorem claim9_counterexample :
    ¬ (∀ w ∈ (writeYamlPipeline
        ⟨"root", fun _ => false, fun _ => .ok,
         ["Product Definition Spreadsheets/junk.txt"]⟩).2,
        warnStream w = .stderr) := by
  decide

/-- C9 (amended): every warning except the scan pattern-mismatch one goes
to stderr; the pattern-mismatch warning goes to stdout, and it appears
exactly for the scanned paths the regex does not match. -/
theorem claim9_warn_streams (env : Env) :
    (∀ w ∈ (writeYamlPipeline env).2,
       (∀ p, w ≠ WarnKind.scanNoMatch p) → warnStream w = .stderr) ∧
    (∀ w ∈ (writeYamlPipeline env).2, ∀ p, w = WarnKind.scanNoMatch p →
       warnStream w = .stdout) ∧
    (∀ p, WarnKind.scanNoMatch p ∈ (writeYamlPipeline env).2
       ↔ p ∈ env.scanPaths ∧ matchProdSheet p = none) := by
  have hpipe : (writeYamlPipeline env).2
      = scanWarnings env.scanPaths
        ++ (if (perProductInfos env.scanPaths).isEmpty
            then [WarnKind.noProducts (joinPath env.dir productsDirName)]
            else [])
        ++ (processInfos env (some "YamlCheck")
              (staticInfos ++ commonInfos ++ perProductInfos env.scanPaths)).2
        ++ (if env.isFile (gattrsPath env) then []
            else [WarnKind.missingFile (gattrsPath env)]) := by
    rfl
  refine ⟨?_, ?_, ?_⟩
  · intro w _ hnp
    cases w with
    | scanNoMatch p => exact absurd rfl (hnp p)
    | noProducts _ => rfl
    | missingFile _ => rfl
    | parseFail _ _ => rfl
  · intro w _ p hp
    rw [hp]
    rfl
  · intro p
    rw [hpipe]
    constructor
    · intro hm
      rcases List.mem_append.mp hm with hm1 | hm4
      · rcases List.mem_append.mp hm1 with hm2 | hm3
        · rcases List.mem_append.mp hm2 with hms | hmz
          · rcases List.mem_filterMap.mp hms with ⟨q, hq, hqe⟩
            by_cases h : (matchProdSheet q).isNone <;> simp [h] at hqe
            have hqp : q = p := by simpa using hqe
            subst hqp
            exact ⟨hq, by simpa [Option.isNone_iff_eq_none] using h⟩
          · by_cases h : (perProductInfos env.scanPaths).isEmpty <;>
              simp [h] at hmz
        · rcases processInfos_warn_shape env (some "YamlCheck") _ _ hm3 with
            ⟨q, hq⟩ | ⟨q, m, hq⟩ <;> cases hq
      · by_cases h : env.isFile (gattrsPath env) <;> simp [h] at hm4
    · rintro ⟨hmem, hnone⟩
      refine List.mem_append.mpr (Or.inl (List.mem_append.mpr (Or.inl
        (List.mem_append.mpr (Or.inl ?_)))))
      exact List.mem_filterMap.mpr ⟨p, hmem, by simp [hnone]⟩

/-- Witness for C9 (amended) at a concrete environment. -/
theorem claim9_warn_streams_witness :
    WarnKind.scanNoMatch "Product Definition Spreadsheets/junk.txt"
      ∈ (writeYamlPipeline
          ⟨"root", fun _ => false, fun _ => .ok,
           ["Product Definition Spreadsheets/junk.txt"]⟩).2 :=
  ((claim9_warn_streams
      ⟨"root", fun _ => false, fun _ => .ok,
       ["Product Definition Spreadsheets/junk.txt"]⟩).2.2
    "Product Definition Spreadsheets/junk.txt").mpr ⟨by decide, by decide⟩

/-! ## Claim C3: supporting lemmas -/

theorem matchProdSheet_props (p name ty : String)
    (h : matchProdSheet p = some (name, ty)) :
    name.data ≠ [] ∧ name.data.all allowedNameChar = true ∧
    (ty = "Variables" ∨ ty = "Dimensions") := by
  unfold matchProdSheet at h
  split at h
  next c3 c2 c1 tail heq =>
    split at h
    next t hty =>
      split at h
      next hsuf =>
        simp only [] at h
        split at h
        next hcond =>
          have hinj := Option.some.inj h
          have h1 : (⟨c2.data.take (c2.data.length - 5)⟩ : String) = name :=
            congrArg Prod.fst hinj
          have h2 : t = ty := congrArg Prod.snd hinj
          have htv : t = "Variables" ∨ t = "Dimensions" := by
            unfold sheetTypeOf at hty
            split at hty
            · exact Or.inl (Option.some.inj hty).symm
            · split at hty
              · exact Or.inr (Option.some.inj hty).symm
              · exact Option.noConfusion hty
          refine ⟨?_, ?_, h2 ▸ htv⟩
          · rw [← h1]
            exact hcond.1
          · rw [← h1]
            simpa using hcond.2.1
        next hcond => exact Option.noConfusion h
      next hsuf => exact Option.noConfusion h
    next hty => exact Option.noConfusion h
  next => exact Option.noConfusion h

theorem allowed_sepFree (d : List Char) (hall : d.all allowedNameChar = true) :
    '_' ∉ d := by
  intro hmem
  exact absurd (List.all_eq_true.mp hall '_' hmem) (by decide)

/-- Shape of the facets produced by the per-product scan. -/
theorem perProduct_facets_shape (sp : List String) :
    ∀ i ∈ perProductInfos sp, ∃ nm t, i.facets = ["product", nm, t] ∧
      (∀ s ∈ i.facets, sepFree s) ∧ (t = "variable" ∨ t = "dimension") := by
  intro i hi
  rcases List.mem_filterMap.mp hi with ⟨q, _, hmap⟩
  cases hmq : matchProdSheet q with
  | none => rw [hmq] at hmap; cases hmap
  | some nt =>
    rw [hmq] at hmap
    obtain ⟨nm, ty⟩ := nt
    have hieq : i = ⟨q, clsOfType ty, ["product", nm, facetNameOfType ty]⟩ :=
      (Option.some.inj hmap).symm
    rcases matchProdSheet_props q nm ty hmq with ⟨hne, hall, hvd⟩
    refine ⟨nm, facetNameOfType ty, by rw [hieq], ?_, ?_⟩
    · rw [hieq]
      intro s hs
      simp only [List.mem_cons, List.mem_singleton, List.not_mem_nil,
        or_false] at hs
      rcases hs with rfl | rfl | rfl
      · decide
      · exact allowed_sepFree _ hall
      · rcases hvd with rfl | rfl <;> decide
    · rcases hvd with rfl | rfl
      · exact Or.inl (by decide)
      · exact Or.inr (by decide)

/-- Facets of a record loaded by `write_yaml`'s CV enumeration come from
one of the three discovery families. -/
theorem cv_facets_mem (env : Env) (bc : Option String) (cv : CVRec)
    (h : cv ∈ (getAllCvs env bc).1) :
    cv.facets ∈ staticInfos.map CVParseInfo.facets ∨
    cv.facets ∈ commonInfos.map CVParseInfo.facets ∨
    cv.facets ∈ (perProductInfos env.scanPaths).map CVParseInfo.facets := by
  have hsub := processInfos_facets_sublist env bc
    (staticInfos ++ commonInfos ++ perProductInfos env.scanPaths)
  have hm : cv.facets ∈ ((getAllCvs env bc).1.map CVRec.facets) :=
    List.mem_map_of_mem CVRec.facets h
  have hm2 : cv.facets ∈ (staticInfos ++ commonInfos
      ++ perProductInfos env.scanPaths).map CVParseInfo.facets :=
    hsub.subset hm
  rw [List.map_append, List.map_append] at hm2
  rcases List.mem_append.mp hm2 with h12 | h3
  · rcases List.mem_append.mp h12 with h1 | h2
    · exact Or.inl h1
    · exact Or.inr (Or.inl h2)
  · exact Or.inr (Or.inr h3)

/-- Every token of every loaded record's facets is separator-free. -/
theorem cv_tokens_sepFree (env : Env) (bc : Option String) (cv : CVRec)
    (h : cv ∈ (getAllCvs env bc).1) : ∀ s ∈ cv.facets, sepFree s := by
  rcases cv_facets_mem env bc cv h with h1 | h2 | h3
  · revert h1
    have : ∀ F ∈ staticInfos.map CVParseInfo.facets, ∀ s ∈ F, sepFree s := by
      decide
    intro h1
    exact this _ h1
  · revert h2
    have : ∀ F ∈ commonInfos.map CVParseInfo.facets, ∀ s ∈ F, sepFree s := by
      decide
    intro h2
    exact this _ h2
  · rcases List.mem_map.mp h3 with ⟨i, hi, hfe⟩
    rcases perProduct_facets_shape env.scanPaths i hi with ⟨nm, t, _, htok, _⟩
    rw [← hfe]
    exact htok

/-- Loaded facets are nonempty and never of length 2. -/
theorem cv_facets_shape (env : Env) (bc : Option String) (cv : CVRec)
    (h : cv ∈ (getAllCvs env bc).1) :
    cv.facets ≠ [] ∧ cv.facets.length ≠ 2 := by
  rcases cv_facets_mem env bc cv h with h1 | h2 | h3
  · revert h1
    have : ∀ F ∈ staticInfos.map CVParseInfo.facets, F ≠ [] ∧ F.length ≠ 2 := by
      decide
    intro h1
    exact this _ h1
  · revert h2
    have : ∀ F ∈ commonInfos.map CVParseInfo.facets, F ≠ [] ∧ F.length ≠ 2 := by
      decide
    intro h2
    exact this _ h2
  · rcases List.mem_map.mp h3 with ⟨i, hi, hfe⟩
    rcases perProduct_facets_shape env.scanPaths i hi with ⟨nm, t, hsh, _, _⟩
    rw [← hfe, hsh]
    exact ⟨by simp, by simp⟩

/-- Loaded facets never coincide with a wrapper's facets
`["product", k, <mode>]`. -/
theorem cv_facets_ne_wrapper (env : Env) (bc : Option String) (cv : CVRec)
    (h : cv ∈ (getAllCvs env bc).1) (k lm : String)
    (hlm : lm ∈ ["land", "sea", "air"]) :
    cv.facets ≠ ["product", k, lm] := by
  rcases cv_facets_mem env bc cv h with h1 | h2 | h3
  · revert h1
    have : ∀ F ∈ staticInfos.map CVParseInfo.facets, F.length = 1 := by decide
    intro h1 heq
    rw [heq] at h1
    exact absurd (this _ h1) (by simp)
  · revert h2
    have : ∀ F ∈ commonInfos.map CVParseInfo.facets, F.length = 4 := by decide
    intro h2 heq
    rw [heq] at h2
    exact absurd (this _ h2) (by simp)
  · rcases List.mem_map.mp h3 with ⟨i, hi, hfe⟩
    rcases perProduct_facets_shape env.scanPaths i hi with ⟨nm, t, hsh, _, hvd⟩
    rw [← hfe, hsh]
    intro heq
    have ht : t = lm := by
      have := congrArg (fun F : List String => F.getD 2 "") heq
      simpa using this
    rcases hvd with rfl | rfl <;> (fin_cases hlm <;> simp at ht)

/-- Loaded facets never coincide with a global check's facets. -/
theorem cv_facets_ne_global (env : Env) (bc : Option String) (cv : CVRec)
    (h : cv ∈ (getAllCvs env bc).1) :
    cv.facets ∉ [["file_info"], ["file_structure"], ["global_attrs"]] := by
  rcases cv_facets_mem env bc cv h with h1 | h2 | h3
  · revert h1
    have : ∀ F ∈ staticInfos.map CVParseInfo.facets,
        F ∉ [["file_info"], ["file_structure"], ["global_attrs"]] := by decide
    intro h1
    exact this _ h1
  · revert h2
    have : ∀ F ∈ commonInfos.map CVParseInfo.facets,
        F ∉ [["file_info"], ["file_structure"], ["global_attrs"]] := by decide
    intro h2
    exact this _ h2
  · rcases List.mem_map.mp h3 with ⟨i, hi, hfe⟩
    rcases perProduct_facets_shape env.scanPaths i hi with ⟨nm, t, hsh, _, _⟩
    intro hmem
    have hlen1 : cv.facets.length = 3 := by
      rw [← hfe, hsh]
      rfl
    have hlen2 : ∀ F ∈ [["file_info"], ["file_structure"], ["global_attrs"]],
        F.length = 1 := by decide
    have h1 := hlen2 _ hmem
    rw [hlen1] at h1
    exact absurd h1 (by decide)

/-- Under the amended hypothesis, loaded facets are pairwise distinct. -/
theorem cvs_facets_nodup (env : Env) (bc : Option String)
    (hnd : ((perProductInfos env.scanPaths).map CVParseInfo.facets).Nodup) :
    ((getAllCvs env bc).1.map CVRec.facets).Nodup := by
  apply List.Sublist.nodup (processInfos_facets_sublist env bc
    (staticInfos ++ commonInfos ++ perProductInfos env.scanPaths))
  rw [List.map_append, List.map_append]
  have h1 : ((staticInfos.map CVParseInfo.facets)
      ++ (commonInfos.map CVParseInfo.facets)).Nodup := by decide
  have hlen : ∀ F ∈ (staticInfos.map CVParseInfo.facets)
      ++ (commonInfos.map CVParseInfo.facets), F.length ≠ 3 := by decide
  refine List.Nodup.append h1 hnd ?_
  intro F hF hF2
  rcases List.mem_map.mp hF2 with ⟨i, hi, hfe⟩
  rcases perProduct_facets_shape env.scanPaths i hi with ⟨nm, t, hsh, _, _⟩
  apply hlen F hF
  rw [← hfe, hsh]
  rfl

/-- Wrapper facets for distinct products and modes are pairwise
distinct. -/
theorem nodup_wrapper_facets (keys : List String) (hnd : keys.Nodup) :
    (keys.flatMap (fun k => deploymentModes.map
        (fun m => (["product", k, pyLower m] : List String)))).Nodup := by
  induction keys with
  | nil => simp
  | cons k rest ih =>
    rw [List.flatMap_cons]
    rcases List.nodup_cons.mp hnd with ⟨hknr, hndr⟩
    refine List.Nodup.append ?_ (ih hndr) ?_
    · rw [modes_map_pyLower (fun lm => (["product", k, lm] : List String))]
      simp
    · intro F hF hF2
      rw [modes_map_pyLower (fun lm => (["product", k, lm] : List String))]
        at hF
      rcases List.mem_flatMap.mp hF2 with ⟨k', hk', hFm⟩
      rcases List.mem_map.mp hFm with ⟨m', _, hFe⟩
      have hkk : k = k' := by
        have h1 : F.getD 1 "" = k := by
          fin_cases hF <;> rfl
        have h2 : F.getD 1 "" = k' := by
          rw [← hFe]
          rfl
        rw [h1] at h2
        exact h2
      exact hknr (hkk ▸ hk')

theorem getFilename_eq_ns (f g : List String) (ext : String)
    (h : getFilename f ext = getFilename g ext) :
    (amfNamespace f).data = (amfNamespace g).data := by
  have hd := congrArg String.data h
  simp only [getFilename, String.data_append] at hd
  exact List.append_cancel_left
    (List.append_cancel_right (List.append_cancel_right hd))

/-- The two facet shapes a record emitted by `write_yaml` can have: one of
the three fixed global-check facet lists (whose tokens contain the
separator), or a nonempty separator-free-token list whose length is
never 2. -/
def emittedShape (F : List String) : Prop :=
  F ∈ [["file_info"], ["file_structure"], ["global_attrs"]] ∨
  (F ≠ [] ∧ F.length ≠ 2 ∧ ∀ s ∈ F, sepFree s)

theorem shape_mixed_absurd (F G : List String)
    (hF : F ∈ [["file_info"], ["file_structure"], ["global_attrs"]])
    (hG : G ≠ [] ∧ G.length ≠ 2 ∧ ∀ s ∈ G, sepFree s)
    (heq : getFilename F "yml" = getFilename G "yml") : False := by
  have hns := getFilename_eq_ns F G "yml" heq
  have hsplitF : ((amfNamespace F).data.splitOn '_').length = 2 := by
    fin_cases hF <;> decide
  have hsplitG : (amfNamespace G).data.splitOn '_' = G.map String.data := by
    rw [amfNamespace_data]
    refine List.splitOn_intercalate _ '_' ?_ ?_
    · intro l hl
      rcases List.mem_map.mp hl with ⟨s, hs, rfl⟩
      exact hG.2.2 s hs
    · simpa using hG.1
  rw [hns, hsplitG] at hsplitF
  rw [List.length_map] at hsplitF
  exact hG.2.1 hsplitF

theorem shape_filename_inj (F G : List String)
    (hF : emittedShape F) (hG : emittedShape G)
    (heq : getFilename F "yml" = getFilename G "yml") : F = G := by
  rcases hF with hF1 | hF2
  · rcases hG with hG1 | hG2
    · have hh : ∀ F ∈ [["file_info"], ["file_structure"], ["global_attrs"]],
          ∀ G ∈ [["file_info"], ["file_structure"], ["global_attrs"]],
          getFilename F "yml" = getFilename G "yml" → F = G := by decide
      exact hh F hF1 G hG1 heq
    · exact absurd heq (fun h => shape_mixed_absurd F G hF1 hG2 h)
  · rcases hG with hG1 | hG2
    · exact absurd heq.symm (fun h => shape_mixed_absurd G F hG1 hF2 h)
    · exact getFilename_inj F G "yml" hF2.2.2 hG2.2.2 hF2.1 hG2.1 heq

theorem prodKey_mem_facets (r : CVRec) (k : String)
    (h : prodKeyOf r = some k) : k ∈ r.facets := by
  unfold prodKeyOf at h
  split at h
  next pl heq =>
    split at h
    · exact Option.noConfusion h
    · have hk : pl.1 = k := Option.some.inj h
      unfold scopedInfo at heq
      split at heq
      next p f2 rest heq2 =>
        have hp : p = pl.1 := congrArg Prod.fst (Option.some.inj heq)
        rw [heq2, ← hk, ← hp]
        simp
      next => exact Option.noConfusion heq
  next => exact Option.noConfusion h

theorem keys_sepFree (env : Env) (bc : Option String) :
    ∀ k ∈ keysOf (groupCvs (getAllCvs env bc).1).prods, sepFree k := by
  intro k hk
  rcases (mem_keys_prods _ k).mp hk with ⟨r, hr, hpk⟩
  exact cv_tokens_sepFree env bc r hr k (prodKey_mem_facets r k hpk)

theorem global_facets_mem (ga : Bool) :
    ∀ F ∈ (globalChecks ga).map LeafCheck.facets,
      F ∈ [["file_info"], ["file_structure"], ["global_attrs"]] := by
  cases ga <;> decide

/-- Every record emitted by `write_yaml` has one of the two facet
shapes. -/
theorem emitted_shape (env : Env) :
    ∀ c ∈ (writeYamlPipeline env).1, emittedShape c.facets := by
  intro c hc
  have hc' : c ∈ writeYamlChecks (getAllCvs env (some "YamlCheck")).1
      (env.isFile (gattrsPath env)) := hc
  unfold writeYamlChecks at hc'
  rcases List.mem_append.mp hc' with h12 | h3
  · rcases List.mem_append.mp h12 with h1 | h2
    · rcases List.mem_map.mp h1 with ⟨r, hr, rfl⟩
      right
      have hs := cv_facets_shape env (some "YamlCheck") r hr
      exact ⟨hs.1, hs.2, cv_tokens_sepFree env (some "YamlCheck") r hr⟩
    · rcases List.mem_map.mp h2 with ⟨l, hl, rfl⟩
      left
      exact global_facets_mem _ _ (List.mem_map_of_mem LeafCheck.facets hl)
  · rw [wrapperChecks_eq] at h3
    rcases List.mem_flatMap.mp h3 with ⟨k, hk, hcm⟩
    rcases List.mem_map.mp hcm with ⟨m, hm, rfl⟩
    show emittedShape ["product", k, pyLower m]
    right
    refine ⟨by simp, by simp, ?_⟩
    intro s hs
    simp only [List.mem_cons, List.mem_singleton, List.not_mem_nil,
      or_false] at hs
    rcases hs with rfl | rfl | rfl
    · decide
    · exact keys_sepFree env (some "YamlCheck") _ hk
    · fin_cases hm <;> decide

/-- Under the amended hypothesis, the facet lists of the emitted records
are pairwise distinct. -/
theorem emitted_facets_nodup (env : Env)
    (hnd : ((perProductInfos env.scanPaths).map CVParseInfo.facets).Nodup) :
    ((writeYamlPipeline env).1.map Check.facets).Nodup := by
  show ((writeYamlChecks (getAllCvs env (some "YamlCheck")).1
      (env.isFile (gattrsPath env))).map Check.facets).Nodup
  unfold writeYamlChecks
  rw [List.map_append, List.map_append]
  have hA : ((getAllCvs env (some "YamlCheck")).1.map
        (fun r => Check.leaf (.cvCheck r))).map Check.facets
      = (getAllCvs env (some "YamlCheck")).1.map CVRec.facets := by
    rw [List.map_map]
    rfl
  have hB : ((globalChecks (env.isFile (gattrsPath env))).map
        Check.leaf).map Check.facets
      = (globalChecks (env.isFile (gattrsPath env))).map LeafCheck.facets := by
    rw [List.map_map]
    rfl
  have hC : (wrapperChecks (getAllCvs env (some "YamlCheck")).1
        (env.isFile (gattrsPath env))).map Check.facets
      = (keysOf (groupCvs (getAllCvs env (some "YamlCheck")).1).prods).flatMap
          (fun k => deploymentModes.map
            (fun m => (["product", k, pyLower m] : List String))) := by
    rw [wrapperChecks_eq, List.map_flatMap, List.flatMap_def, List.flatMap_def]
    congr 1
  rw [hA, hB, hC]
  have hga : ∀ F ∈ (globalChecks (env.isFile (gattrsPath env))).map
      LeafCheck.facets,
      F ∈ [["file_info"], ["file_structure"], ["global_attrs"]] :=
    global_facets_mem _
  refine List.Nodup.append (List.Nodup.append
    (cvs_facets_nodup env (some "YamlCheck") hnd) ?_ ?_) ?_ ?_
  · cases hb : env.isFile (gattrsPath env) <;> decide
  · intro F hF hFB
    rcases List.mem_map.mp hF with ⟨r, hr, rfl⟩
    exact cv_facets_ne_global env (some "YamlCheck") r hr (hga _ hFB)
  · exact nodup_wrapper_facets _ (nodup_keys_prods _)
  · intro F hF hFC
    rcases List.mem_flatMap.mp hFC with ⟨k, hk, hFm⟩
    rcases List.mem_map.mp hFm with ⟨m, hm, hFe⟩
    have hlm : pyLower m ∈ ["land", "sea", "air"] := by
      fin_cases hm <;> decide
    rcases List.mem_append.mp hF with hFA | hFB
    · rcases List.mem_map.mp hFA with ⟨r, hr, rfl⟩
      exact cv_facets_ne_wrapper env (some "YamlCheck") r hr k (pyLower m) hlm
        hFe.symm
    · have hl1 : ∀ G ∈ [["file_info"], ["file_structure"], ["global_attrs"]],
          G.length = 1 := by decide
      have h1 := hl1 _ (hga _ hFB)
      rw [← hFe] at h1
      simp at h1

/-! ## Claim C3 -/

/-- C3 as stated is false: a tree whose scan area holds both
`foo/foo.xlsx/Variables - Specific.tsv` and
`xfoo/foo.xlsx/Variables - Specific.tsv` yields two records with the same
facets `["product", "foo", "variable"]` (the regex backreference matches
`foo` as a suffix of `xfoo`), so two emitted records collide on output
filename. -/
theorem claim3_counterexample :
    ¬ ((writeYamlPipeline
        ⟨"root",
         fun q => (q ==
            "root/Product Definition Spreadsheets/foo/foo.xlsx/Variables - Specific.tsv")
          || (q ==
            "root/Product Definition Spreadsheets/xfoo/foo.xlsx/Variables - Specific.tsv"),
         fun _ => .ok,
         ["Product Definition Spreadsheets/foo/foo.xlsx/Variables - Specific.tsv",
          "Product Definition Spreadsheets/xfoo/foo.xlsx/Variables - Specific.tsv"]⟩).1.map
        (fun c => getFilename c.facets "yml")).Nodup := by
  decide

/-- C3 (amended): in any run where the per-product scan yields pairwise
distinct facet sequences, the emitted records have pairwise distinct
facet sequences and pairwise distinct output filenames. -/
theorem claim3_unique_filenames (env : Env)
    (hnd : ((perProductInfos env.scanPaths).map CVParseInfo.facets).Nodup) :
    ((writeYamlPipeline env).1.map Check.facets).Nodup ∧
    ((writeYamlPipeline env).1.map
        (fun c => getFilename c.facets "yml")).Nodup := by
  have hfac := emitted_facets_nodup env hnd
  refine ⟨hfac, ?_⟩
  have hmapeq : (writeYamlPipeline env).1.map
        (fun c => getFilename c.facets "yml")
      = ((writeYamlPipeline env).1.map Check.facets).map
          (fun F => getFilename F "yml") := by
    rw [List.map_map]
    rfl
  rw [hmapeq]
  refine List.Nodup.map_on ?_ hfac
  intro F hF G hG heq
  rcases List.mem_map.mp hF with ⟨c, hc, rfl⟩
  rcases List.mem_map.mp hG with ⟨c', hc', rfl⟩
  exact shape_filename_inj _ _ (emitted_shape env c hc)
    (emitted_shape env c' hc') heq

/-- Witness for C3 (amended) at a concrete environment. -/
theorem claim3_unique_filenames_witness :
    ((writeYamlPipeline
        ⟨"root",
         fun q => q ==
           "root/Product Definition Spreadsheets/wind/wind.xlsx/Variables - Specific.tsv",
         fun _ => .ok,
         ["Product Definition Spreadsheets/wind/wind.xlsx/Variables - Specific.tsv"]⟩).1.map
        (fun c => getFilename c.facets "yml")).Nodup :=
  (claim3_unique_filenames
    ⟨"root",
     fun q => q ==
       "root/Product Definition Spreadsheets/wind/wind.xlsx/Variables - Specific.tsv",
     fun _ => .ok,
     ["Product Definition Spreadsheets/wind/wind.xlsx/Variables - Specific.tsv"]⟩
    (by decide)).2

end AmfCheckWriter
